import Mathlib

/-!
Verification of the makemnee bounty-board backend against its natural-language
specification.

The Python sources under src/backend/app are shallowly embedded below:

* Machine numbers are modelled exactly. Python `Decimal` and `float` values are
  represented by `Frac`, an unnormalized fraction `num / den` over `Int`/`Nat`
  (kept unnormalized so that every operation is structurally computable; value
  comparisons cross-multiply). `Decimal` context arithmetic (precision 28,
  ROUND_HALF_EVEN) is modelled by `decimalRound28`; binary64 narrowing by
  `float64Round` (round to nearest, ties to even, 53-bit significand;
  subnormal underflow is not modelled, such values are unreachable in the
  theorems below). CPython's `repr` of a float (shortest decimal string that
  reads back to the same float, closest-first among equals) is modelled by its
  read-back value `pyReprValue`, exact for nonnegative integer-valued floats —
  the only float values the theorems evaluate it at.
* Python exceptions are an explicit `PyErr` error monad; `try/except` clauses
  are modelled by `pyCatch`-style handlers that intercept exactly the listed
  exception classes. Note `decimal.InvalidOperation` derives from
  `ArithmeticError`, not from `ValueError`.
* `datetime.utcnow()` is modelled by an explicit `now : Int` parameter
  (timestamps in seconds; `timedelta(minutes=15)` is `900`).
* The SQLAlchemy store is a record of lists; `filter(...).first()` is
  `List.find?`, `order_by(desc)` is a stable `mergeSort` by descending
  creation time, row mutation keyed by primary key is a `map` that replaces
  the row with the matching id.
-/

set_option maxRecDepth 100000

namespace Makemnee

/-! ## Characters, digit strings -/

/-- ASCII decimal digit test. -/
def isDigitChar (c : Char) : Bool :=
  decide (48 ≤ c.toNat) && decide (c.toNat ≤ 57)

/-- ASCII hexadecimal digit test, both cases (regex class [0-9a-fA-F]). -/
def isHexDigitChar (c : Char) : Bool :=
  isDigitChar c || (decide (97 ≤ c.toNat) && decide (c.toNat ≤ 102))
    || (decide (65 ≤ c.toNat) && decide (c.toNat ≤ 70))

def allDigits (l : List Char) : Bool := l.all isDigitChar

/-- Numeric value of a most-significant-first ASCII digit run. -/
def digitsVal (l : List Char) : ℕ := l.foldl (fun a c => 10 * a + (c.toNat - 48)) 0

/-- ASCII digit character for a single decimal digit. -/
def digitChar (d : ℕ) : Char :=
  match d with
  | 0 => '0' | 1 => '1' | 2 => '2' | 3 => '3' | 4 => '4'
  | 5 => '5' | 6 => '6' | 7 => '7' | 8 => '8' | _ => '9'

/-- Python's str.lower(), per character (the stored ids and addresses are
ASCII, where Char.toLower agrees with Python). -/
def lowerStr (s : String) : String := String.mk (s.toList.map Char.toLower)

/-- Python's s.startswith("0x"). -/
def startsWith0x (s : String) : Bool :=
  match s.toList with
  | '0' :: 'x' :: _ => true
  | _ => false

/-! ## Fuel-based base-2 and base-10 logarithms and digit expansions
(structural recursion so that the kernel can evaluate them). -/

def log2fuel : ℕ → ℕ → ℕ
  | 0, _ => 0
  | f + 1, n => if n < 2 then 0 else log2fuel f (n / 2) + 1

/-- Floor of log base 2 on positive naturals. -/
def natLog2 (n : ℕ) : ℕ := log2fuel n n

def log10fuel : ℕ → ℕ → ℕ
  | 0, _ => 0
  | f + 1, n => if n < 10 then 0 else log10fuel f (n / 10) + 1

/-- Floor of log base 10 on positive naturals. -/
def natLog10 (n : ℕ) : ℕ := log10fuel n n

def digitsFuel : ℕ → ℕ → List ℕ
  | 0, _ => []
  | f + 1, n => if n = 0 then [] else n % 10 :: digitsFuel f (n / 10)

/-- Little-endian decimal digits of a natural number (empty for 0). -/
def decDigits (n : ℕ) : List ℕ := digitsFuel n n

/-- Number of decimal digits (0 for 0). -/
def numDigits (n : ℕ) : ℕ := (decDigits n).length

/-- Python's str() of a natural number: most-significant-first decimal
digits. -/
def pyStrNat (n : ℕ) : String :=
  if n = 0 then "0" else String.mk ((decDigits n).reverse.map digitChar)

/-- Python's str() of an int. -/
def pyStrInt (z : ℤ) : String :=
  if z < 0 then "-" ++ pyStrNat z.natAbs else pyStrNat z.toNat

/-! ## Exact fractions: the value space of Python Decimal and float -/

/-- An exact rational value `num / den`, kept unnormalized. Every constructor
used by the model produces a positive denominator. -/
structure Frac where
  num : ℤ
  den : ℕ
deriving DecidableEq, Repr

def Frac.ofNat (n : ℕ) : Frac := ⟨n, 1⟩

def Frac.ofInt (z : ℤ) : Frac := ⟨z, 1⟩

def Frac.neg (q : Frac) : Frac := ⟨-q.num, q.den⟩

/-- Exact product of two fractions. -/
def Frac.mul (a b : Frac) : Frac := ⟨a.num * b.num, a.den * b.den⟩

/-- Exact quotient of two fractions (junk when b is 0; never used so). -/
def Frac.div (a b : Frac) : Frac := ⟨a.num * b.den * b.num.sign, a.den * b.num.natAbs⟩

/-- Exact scaling by an integer power of 10. -/
def Frac.mulPow10 (q : Frac) (k : ℤ) : Frac :=
  if 0 ≤ k then ⟨q.num * ((10 ^ k.toNat : ℕ) : ℤ), q.den⟩
  else ⟨q.num, q.den * 10 ^ (-k).toNat⟩

/-- Exact scaling by an integer power of 2. -/
def Frac.mulPow2 (q : Frac) (k : ℤ) : Frac :=
  if 0 ≤ k then ⟨q.num * ((2 ^ k.toNat : ℕ) : ℤ), q.den⟩
  else ⟨q.num, q.den * 2 ^ (-k).toNat⟩

/-- Mathematical floor (Euclidean division by the positive denominator). -/
def Frac.floorI (q : Frac) : ℤ := q.num.ediv q.den

/-- Truncation toward zero, the semantics of Python's int(). -/
def Frac.truncI (q : Frac) : ℤ := q.num.tdiv q.den

/-- Value equality of two fractions with positive denominators. -/
def Frac.beqv (a b : Frac) : Bool := a.num * b.den == b.num * a.den

/-- Round half to even to an integer: the rounding used by both the binary64
narrowing and Decimal's ROUND_HALF_EVEN. -/
def rheF (q : Frac) : ℤ :=
  let f := q.num.ediv q.den
  let r2 := 2 * (q.num - f * q.den)
  if r2 < (q.den : ℤ) then f
  else if (q.den : ℤ) < r2 then f + 1
  else if f % 2 = 0 then f else f + 1

def negExpSearch (base : ℕ) (q : Frac) : ℕ → ℕ → ℕ
  | 0, k => k
  | f + 1, k =>
    if (q.den : ℤ) ≤ q.num * ((base ^ k : ℕ) : ℤ) then k else negExpSearch base q f (k + 1)

/-- Floor of log base 2 of a positive fraction. -/
def floorLog2F (q : Frac) : ℤ :=
  if (q.den : ℤ) ≤ q.num then (natLog2 (q.num.ediv q.den).toNat : ℤ)
  else -(negExpSearch 2 q 1200 1 : ℤ)

/-- Floor of log base 10 of a positive fraction. -/
def floorLog10F (q : Frac) : ℤ :=
  if (q.den : ℤ) ≤ q.num then (natLog10 (q.num.ediv q.den).toNat : ℤ)
  else -(negExpSearch 10 q 400 1 : ℤ)

/-- Round a positive fraction to the nearest binary64 value: round the
53-bit significand half to even at scale 2^(floorLog2 - 52). -/
def float64RoundPos (q : Frac) : Frac :=
  let s : ℤ := floorLog2F q - 52
  (Frac.ofInt (rheF (q.mulPow2 (-s)))).mulPow2 s

/-- Round to the nearest binary64 value (unbounded exponent; the overflow
cutoff is applied by pyFloat). -/
def float64Round (q : Frac) : Frac :=
  if q.num = 0 then ⟨0, 1⟩
  else if q.num < 0 then (float64RoundPos q.neg).neg
  else float64RoundPos q

/-! ## Python exceptions -/

inductive PyErr where
  | invalidOperation
  | overflowError
  | valueError
  | typeError
  | integrityError
deriving DecidableEq, Repr

instance {ε α : Type} [DecidableEq ε] [DecidableEq α] : DecidableEq (Except ε α) := fun x y =>
  match x, y with
  | Except.ok a, Except.ok b =>
    if h : a = b then Decidable.isTrue (congrArg Except.ok h)
    else Decidable.isFalse (fun hc => h (Except.ok.inj hc))
  | Except.error a, Except.error b =>
    if h : a = b then Decidable.isTrue (congrArg Except.error h)
    else Decidable.isFalse (fun hc => h (Except.error.inj hc))
  | Except.ok _, Except.error _ => Decidable.isFalse (fun hc => Except.noConfusion hc)
  | Except.error _, Except.ok _ => Decidable.isFalse (fun hc => Except.noConfusion hc)

/-- Python float(Decimal): correctly rounded; raises OverflowError when the
rounded magnitude reaches 2^1024 (equivalently, when its floor-log2 reaches
1024). -/
def pyFloat (q : Frac) : Except PyErr Frac :=
  let r := float64Round q
  if r.num = 0 then Except.ok r
  else if 1024 ≤ floorLog2F (if r.num < 0 then r.neg else r) then
    Except.error PyErr.overflowError
  else Except.ok r

/-- Rounding applied by Decimal context arithmetic: keep 28 significant
digits, ROUND_HALF_EVEN (the default context). Exact results with at most 28
significant digits are returned unchanged. -/
def decimalRound28 (q : Frac) : Frac :=
  if q.num = 0 then q
  else
    let e := if q.num < 0 then floorLog10F q.neg else floorLog10F q
    let k : ℤ := e - 27
    (Frac.ofInt (rheF (q.mulPow10 (-k)))).mulPow10 k

/-- Decimal division under the default context. -/
def decimalDiv (a b : Frac) : Frac := decimalRound28 (a.div b)

/-- Decimal multiplication under the default context. -/
def decimalMul (a b : Frac) : Frac := decimalRound28 (a.mul b)

/-! ## The decimal-string grammar of the Decimal constructor
(sign, integer part, optional fraction, optional exponent; the special values
NaN/Infinity and PEP-515 underscores are not modelled — no theorem below
evaluates the parser on such strings). -/

/-- Split a character list at the first separator matching p. -/
def splitFirst (p : Char → Bool) : List Char → List Char × Option (List Char)
  | [] => ([], none)
  | c :: cs =>
    if p c then ([], some cs)
    else
      let r := splitFirst p cs
      (c :: r.1, r.2)

/-- Leading sign of a numeric literal: (isNegative, rest). -/
def parseSign (l : List Char) : Bool × List Char :=
  match l with
  | [] => (false, [])
  | c :: cs => if c == '+' then (false, cs) else if c == '-' then (true, cs) else (false, c :: cs)

/-- digits [ "." digits ] with at least one digit, as an exact fraction. -/
def parseMantissa (l : List Char) : Option Frac :=
  match splitFirst (fun c => c == '.') l with
  | (ip, none) =>
    if allDigits ip && !ip.isEmpty then some (Frac.ofNat (digitsVal ip)) else none
  | (ip, some fp) =>
    if allDigits ip && allDigits fp && !(ip.isEmpty && fp.isEmpty) then
      some ⟨(digitsVal ip * 10 ^ fp.length + digitsVal fp : ℕ), 10 ^ fp.length⟩
    else none

/-- Signed exponent digits. -/
def parseExpPart (l : List Char) : Option ℤ :=
  let (isNeg, r) := parseSign l
  if allDigits r && !r.isEmpty then
    some (if isNeg then -(digitsVal r : ℤ) else (digitsVal r : ℤ))
  else none

/-- Exact value of a decimal numeric literal, none when the Decimal
constructor would raise decimal.InvalidOperation. -/
def parseDecimal (s : String) : Option Frac :=
  let (isNeg, l) := parseSign s.toList
  match splitFirst (fun c => c == 'e' || c == 'E') l with
  | (mant, none) => (parseMantissa mant).map (fun m => if isNeg then m.neg else m)
  | (mant, some el) =>
    match parseMantissa mant, parseExpPart el with
    | some m, some e => some ((if isNeg then m.neg else m).mulPow10 e)
    | _, _ => none

/-! ## utils/converters.py -/

def WEI_PER_MNEE : ℕ := 10 ^ 18

/-- The except-(ValueError, TypeError) handler of wei_to_mnee: those two
classes produce 0.0, every other exception propagates. -/
def pyCatch (r : Except PyErr Frac) : Except PyErr Frac :=
  match r with
  | Except.error PyErr.valueError => Except.ok ⟨0, 1⟩
  | Except.error PyErr.typeError => Except.ok ⟨0, 1⟩
  | r => r

/-- wei_to_mnee from utils/converters.py: Decimal(wei_amount) (exact,
InvalidOperation on malformed input), context division by Decimal(10^18),
float() narrowing; only ValueError and TypeError are caught. The result is
the exact value of the returned float. -/
def wei_to_mnee (wei_amount : String) : Except PyErr Frac :=
  pyCatch
    (match parseDecimal wei_amount with
     | none => Except.error PyErr.invalidOperation
     | some wei => pyFloat (decimalDiv wei (Frac.ofNat WEI_PER_MNEE)))

/-! ## CPython float repr, as the value its shortest digit string reads back
to. For a float of exact nonnegative integer value m, repr emits the decimal
with the fewest significant digits that rounds back to the same float,
choosing the closest (then even) among equally short candidates; at each
digit count the only possible such decimals are the two enclosing roundings
of m. -/

/-- Distance between naturals. -/
def distN (a b : ℕ) : ℕ := (a - b) + (b - a)

/-- The decimals with d significant digits adjacent to m. -/
def reprCandidates (m d : ℕ) : List ℕ :=
  if numDigits m ≤ d then [m]
  else
    let e := numDigits m - d
    [m / 10 ^ e * 10 ^ e, (m / 10 ^ e + 1) * 10 ^ e]

/-- Does decimal c read back (by binary64 rounding) to the float of value
m? -/
def roundsTo (c m : ℕ) : Bool := (float64Round (Frac.ofNat c)).beqv (Frac.ofNat m)

/-- Among the d-digit candidates that read back to m, the one repr would
emit: closest to m, ties broken toward the even significand. -/
def pickShort (m d : ℕ) : Option ℕ :=
  match (reprCandidates m d).filter (fun c => roundsTo c m) with
  | [] => none
  | [c] => some c
  | c1 :: c2 :: _ =>
    some (if distN c2 m < distN c1 m then c2
          else if distN c1 m < distN c2 m then c1
          else if (c1 / 10 ^ (numDigits m - d)) % 2 = 0 then c1 else c2)

/-- Value read back from repr of the float with exact integer value m. -/
def pyReprValueNat (m : ℕ) : ℕ :=
  match (List.range (numDigits m)).findSome? (fun i => pickShort m (i + 1)) with
  | some v => v
  | none => m

/-- Value of Decimal(repr(f)) for a float value f: modelled exactly for
nonnegative integer-valued floats (the only values reached by the theorems
below); elsewhere approximated by the exact value. -/
def pyReprValue (f : Frac) : Frac :=
  if 0 ≤ f.num ∧ f.num % (f.den : ℤ) = 0 then
    Frac.ofNat (pyReprValueNat (f.num.ediv f.den).toNat)
  else f

/-- mnee_to_wei from utils/converters.py: Decimal(str(mnee_amount)), context
multiplication by Decimal(10^18), int() truncation, str(). The
except-(ValueError, TypeError) branch is unreachable for float input since
str of a float always parses. -/
def mnee_to_wei (mnee_amount : Frac) : String :=
  let d := pyReprValue mnee_amount
  let wei := decimalMul d (Frac.ofNat WEI_PER_MNEE)
  pyStrInt wei.truncI

/-- The composition mnee_to_wei(wei_to_mnee(a)) of claim C7. -/
def roundTrip (s : String) : Except PyErr String := (wei_to_mnee s).map mnee_to_wei

/-! ## Validators from utils/converters.py -/

/-- is_valid_bytes32: regex ^0x[0-9a-fA-F]{64}$. -/
def is_valid_bytes32 (value : String) : Bool :=
  match value.toList with
  | '0' :: 'x' :: rest => rest.length == 64 && rest.all isHexDigitChar
  | _ => false

/-- is_valid_address: regex ^0x[0-9a-fA-F]{40}$. -/
def is_valid_address (value : String) : Bool :=
  match value.toList with
  | '0' :: 'x' :: rest => rest.length == 40 && rest.all isHexDigitChar
  | _ => false

/-- Python int(v) for a plain decimal string: optional sign then digits
(whitespace and PEP-515 underscores are not modelled; no theorem evaluates
the parser on such strings). -/
def pyParseInt (s : String) : Option ℤ :=
  let (isNeg, r) := parseSign s.toList
  if allDigits r && !r.isEmpty then
    some (if isNeg then -(digitsVal r : ℤ) else (digitsVal r : ℤ))
  else none

/-! ## Data model: models.py rows and a store of both tables -/

/-- A row of the bounties table. -/
structure Bounty where
  id : String
  title : String
  description : String
  creator_address : String
  amount : String
  amount_mnee : Frac
  status : ℤ
  created_at : ℤ
  updated_at : ℤ
  completed_at : Option ℤ
  cancelled_at : Option ℤ
  hunter_address : Option String
deriving DecidableEq, Repr

/-- A row of the submissions table. -/
structure Submission where
  id : ℕ
  bounty_id : String
  agent_wallet : String
  result : String
  submitted_at : ℤ
deriving DecidableEq, Repr

/-- The persistent store: both tables plus the submissions autoincrement
counter. -/
structure DB where
  bounties : List Bounty
  submissions : List Submission
  nextSubmissionId : ℕ
deriving DecidableEq, Repr

def emptyDB : DB := ⟨[], [], 0⟩

/-! ## Request schemas from schemas.py -/

/-- Request body of POST /api/bounty. -/
structure BountyCreate where
  id : String
  title : String
  description : String
  creator_address : String
  amount : String
deriving DecidableEq, Repr

/-- Request body of POST /api/bounty/{id}/submit. -/
structure SubmissionCreate where
  wallet_address : String
  result : String
deriving DecidableEq, Repr

/-- Modelled from the spec: the request schema BountyStatusUpdate for
PATCH /api/bounty/{id}/status is referenced by api/bounties.py but its class
is absent from the repository sources (schemas.py defines no such model);
per the spec the body carries status and an optional hunter_address. -/
structure BountyStatusUpdate where
  status : ℤ
  hunter_address : Option String
deriving DecidableEq, Repr

/-- Pydantic validation of BountyCreate: field length constraints plus the
validate_id / validate_creator_address / validate_amount validators, which
lower-case the id and the creator address and bound the amount by
uint256. -/
def validate_bounty_create (r : BountyCreate) : Option BountyCreate :=
  if is_valid_bytes32 r.id && is_valid_address r.creator_address &&
      decide (1 ≤ r.title.length) && decide (r.title.length ≤ 200) &&
      decide (1 ≤ r.description.length) && decide (1 ≤ r.amount.length) &&
      (match pyParseInt r.amount with
       | some n => decide (0 ≤ n) && decide (n ≤ 2 ^ 256 - 1)
       | none => false) then
    some { r with id := lowerStr r.id, creator_address := lowerStr r.creator_address }
  else none

/-- Pydantic validation of SubmissionCreate: address format (lower-cased)
and non-empty result. -/
def validate_submission_create (r : SubmissionCreate) : Option SubmissionCreate :=
  if is_valid_address r.wallet_address && decide (1 ≤ r.result.length) then
    some { r with wallet_address := lowerStr r.wallet_address }
  else none

/-- Python truthiness of an Optional[str]: falsy iff None or empty. -/
def pyFalsy (o : Option String) : Bool := o.getD "" == ""

/-! ## crud.py -/

/-- Stable insertion for the descending-by-creation-time order used by the
ORDER BY created_at DESC queries (structural recursion, so concrete stores
evaluate in the kernel; ties keep their store order, as a stable sort
does). -/
def insertDesc (b : Bounty) : List Bounty → List Bounty
  | [] => [b]
  | x :: xs => if x.created_at < b.created_at then b :: x :: xs else x :: insertDesc b xs

/-- Sort newest-first by created_at. -/
def sortDesc : List Bounty → List Bounty
  | [] => []
  | x :: xs => insertDesc x (sortDesc xs)

namespace Crud

/-- get_bounty_by_id: filter(id == bounty_id.lower()).first(). -/
def get_bounty_by_id (db : DB) (bounty_id : String) : Option Bounty :=
  db.bounties.find? (fun b => b.id == lowerStr bounty_id)

/-- create_bounty: insert a new row with lower-cased id and creator, derived
display amount, status 0 (Open) and both timestamps set to now; the primary
key constraint raises IntegrityError on a duplicate id. -/
def create_bounty (db : DB) (now : ℤ) (bounty : BountyCreate) : Except PyErr (DB × Bounty) :=
  match wei_to_mnee bounty.amount with
  | Except.error e => Except.error e
  | Except.ok mnee =>
    let db_bounty : Bounty :=
      { id := lowerStr bounty.id
        title := bounty.title
        description := bounty.description
        creator_address := lowerStr bounty.creator_address
        amount := bounty.amount
        amount_mnee := mnee
        status := 0
        created_at := now
        updated_at := now
        completed_at := none
        cancelled_at := none
        hunter_address := none }
    if db.bounties.any (fun b => b.id == db_bounty.id) then
      Except.error PyErr.integrityError
    else
      Except.ok ({ db with bounties := db.bounties ++ [db_bounty] }, db_bounty)

/-- get_bounties_before_time: status filter and strict created_at cutoff,
ordered by created_at descending. -/
def get_bounties_before_time (db : DB) (status : ℤ) (before_time : ℤ) : List Bounty :=
  sortDesc (db.bounties.filter
    (fun b => b.status == status && decide (b.created_at < before_time)))

/-- get_bounties_by_creator: creator filter (lower-cased), no time filter,
ordered by created_at descending. -/
def get_bounties_by_creator (db : DB) (creator_address : String) : List Bounty :=
  sortDesc (db.bounties.filter (fun b => b.creator_address == lowerStr creator_address))

/-- update_bounty_status: look up the bounty; if present, set status and
updated_at unconditionally; additionally stamp completed_at and (for a truthy
hunter_address) store the lower-cased hunter when new_status is 1, stamp
cancelled_at when new_status is 2. -/
def update_bounty_status (db : DB) (now : ℤ) (bounty_id : String) (new_status : ℤ)
    (hunter_address : Option String) : DB × Option Bounty :=
  match get_bounty_by_id db bounty_id with
  | none => (db, none)
  | some bounty =>
    let b1 : Bounty := { bounty with status := new_status, updated_at := now }
    let b2 : Bounty :=
      if new_status = 1 then
        { b1 with
          completed_at := some now
          hunter_address :=
            if pyFalsy hunter_address then b1.hunter_address
            else some (lowerStr (hunter_address.getD "")) }
      else if new_status = 2 then { b1 with cancelled_at := some now }
      else b1
    ({ db with bounties := db.bounties.map (fun x => if x.id == b2.id then b2 else x) },
      some b2)

/-- create_submission: insert a row with lower-cased bounty id and wallet;
the foreign-key constraint raises IntegrityError when the bounty is
absent. -/
def create_submission (db : DB) (now : ℤ) (bounty_id : String)
    (submission : SubmissionCreate) : Except PyErr (DB × Submission) :=
  if db.bounties.any (fun b => b.id == lowerStr bounty_id) then
    let db_submission : Submission :=
      { id := db.nextSubmissionId
        bounty_id := lowerStr bounty_id
        agent_wallet := lowerStr submission.wallet_address
        result := submission.result
        submitted_at := now }
    Except.ok
      ({ db with
          submissions := db.submissions ++ [db_submission]
          nextSubmissionId := db.nextSubmissionId + 1 }, db_submission)
  else Except.error PyErr.integrityError

end Crud

/-! ## utils/filters.py -/

/-- get_one_hour_ago_timestamp: despite the name, utcnow minus 15 minutes
(timestamps in seconds). -/
def get_one_hour_ago_timestamp (now : ℤ) : ℤ := now - 15 * 60

/-! ## The HTTP boundary: api/bounties.py and api/submissions.py. FastAPI
validates request bodies (pydantic) before the handler runs; handler-raised
HTTPExceptions are an error status code plus detail. -/

inductive ApiResult (α : Type) where
  | ok : α → ApiResult α
  | error : ℕ → String → ApiResult α
deriving DecidableEq, Repr

namespace Api

/-- GET /api/bounties: Open bounties strictly older than the 15-minute
cutoff, newest first. -/
def list_bounties (db : DB) (now : ℤ) : List Bounty :=
  Crud.get_bounties_before_time db 0 (get_one_hour_ago_timestamp now)

/-- GET /api/my-bounties/{creator_address}: 400 unless the path parameter
starts with 0x and has length 42 (hex digits are not checked); otherwise the
creator's bounties filtered to status 0. -/
def get_my_bounties (db : DB) (creator_address : String) : ApiResult (List Bounty) :=
  if !(startsWith0x creator_address && creator_address.length == 42) then
    ApiResult.error 400 "Invalid Ethereum address format"
  else
    ApiResult.ok
      ((Crud.get_bounties_by_creator db (lowerStr creator_address)).filter
        (fun b => b.status == 0))

/-- POST /api/bounty: pydantic validation, duplicate check, insert; any
exception from the insert is surfaced as a 400. -/
def create_bounty (db : DB) (now : ℤ) (raw : BountyCreate) : DB × ApiResult String :=
  match validate_bounty_create raw with
  | none => (db, ApiResult.error 422 "validation error")
  | some bounty =>
    match Crud.get_bounty_by_id db bounty.id with
    | some _ => (db, ApiResult.error 400 "Bounty already exists")
    | none =>
      match Crud.create_bounty db now bounty with
      | Except.ok (db2, db_bounty) => (db2, ApiResult.ok db_bounty.id)
      | Except.error _ => (db, ApiResult.error 400 "Failed to create bounty")

/-- PATCH /api/bounty/{bounty_id}/status: 400 on malformed id, 400 when
status is 1 with a falsy hunter_address, 404 when the bounty is absent;
otherwise the crud update is applied. -/
def update_bounty_status (db : DB) (now : ℤ) (bounty_id : String)
    (status_update : BountyStatusUpdate) : DB × ApiResult Bounty :=
  if !is_valid_bytes32 bounty_id then
    (db, ApiResult.error 400 "Invalid bounty ID format")
  else if status_update.status == 1 && pyFalsy status_update.hunter_address then
    (db, ApiResult.error 400 "hunter_address is required for completed bounties")
  else
    match Crud.update_bounty_status db now bounty_id status_update.status
        status_update.hunter_address with
    | (db2, some updated) => (db2, ApiResult.ok updated)
    | (db2, none) => (db2, ApiResult.error 404 "Bounty not found")

/-- POST /api/bounty/{bounty_id}/submit: pydantic validation, 400 on
malformed id, 404 when the bounty is absent, 400 when its status is not 0;
otherwise the submission is inserted. -/
def submit_work (db : DB) (now : ℤ) (bounty_id : String) (raw : SubmissionCreate) :
    DB × ApiResult ℕ :=
  match validate_submission_create raw with
  | none => (db, ApiResult.error 422 "validation error")
  | some submission =>
    if !is_valid_bytes32 bounty_id then (db, ApiResult.error 400 "Invalid bounty ID format")
    else
      match Crud.get_bounty_by_id db bounty_id with
      | none => (db, ApiResult.error 404 "Bounty not found")
      | some bounty =>
        if !(bounty.status == 0) then
          (db, ApiResult.error 400 "Bounty is not open for submissions")
        else
          match Crud.create_submission db now bounty_id submission with
          | Except.ok (db2, db_submission) => (db2, ApiResult.ok db_submission.id)
          | Except.error _ => (db, ApiResult.error 400 "Failed to create submission")

end Api

/-- States reachable from the empty store by the public mutating
operations. -/
inductive Reachable : DB → Prop where
  | init : Reachable emptyDB
  | create (db : DB) (now : ℤ) (raw : BountyCreate) :
      Reachable db → Reachable (Api.create_bounty db now raw).1
  | update (db : DB) (now : ℤ) (bounty_id : String) (su : BountyStatusUpdate) :
      Reachable db → Reachable (Api.update_bounty_status db now bounty_id su).1
  | submit (db : DB) (now : ℤ) (bounty_id : String) (raw : SubmissionCreate) :
      Reachable db → Reachable (Api.submit_work db now bounty_id raw).1

/-! ## Concrete fixtures for counterexamples and witnesses -/

def exId : String := "0xaaaaaaaaaaaaaaaaaaaaaaaaaaaaaaaaaaaaaaaaaaaaaaaaaaaaaaaaaaaaaaaa"

def exAddrA : String := "0xaaaaaaaaaaaaaaaaaaaaaaaaaaaaaaaaaaaaaaaa"

def exAddrB : String := "0xbbbbbbbbbbbbbbbbbbbbbbbbbbbbbbbbbbbbbbbb"

/-- 42 characters, 0x prefix, but not hexadecimal. -/
def exAddrBad : String := "0xzzzzzzzzzzzzzzzzzzzzzzzzzzzzzzzzzzzzzzzz"

def exRaw : BountyCreate :=
  { id := exId
    title := "Example bounty"
    description := "Do the work"
    creator_address := exAddrA
    amount := "2000000000000000000" }

def exSub : SubmissionCreate := { wallet_address := exAddrB, result := "result A" }

/-- A stored Completed bounty with its hunter recorded. -/
def exCompleted : Bounty :=
  { id := exId
    title := "Example bounty"
    description := "Do the work"
    creator_address := exAddrA
    amount := "2000000000000000000"
    amount_mnee := Frac.ofNat 2
    status := 1
    created_at := 0
    updated_at := 10
    completed_at := some 10
    cancelled_at := none
    hunter_address := some exAddrB }

def dbCompleted : DB := ⟨[exCompleted], [], 0⟩

/-- Reachable three-step history: register, complete with hunter, then
cancel. -/
def c2db1 : DB := (Api.create_bounty emptyDB 0 exRaw).1

def c2db2 : DB :=
  (Api.update_bounty_status c2db1 10 exId { status := 1, hunter_address := some exAddrB }).1

def c2db : DB :=
  (Api.update_bounty_status c2db2 20 exId { status := 2, hunter_address := none }).1

/-- The row produced by an accepted status update for a found bounty: status
and updated_at always rewritten, completion and cancellation stamps per the
requested status, hunter stored only for status 1 with a truthy
hunter_address. -/
def updatedRow (old : Bounty) (now : ℤ) (ns : ℤ) (ha : Option String) : Bounty :=
  if ns = 1 then
    { old with
      status := ns
      updated_at := now
      completed_at := some now
      hunter_address :=
        if pyFalsy ha then old.hunter_address else some (lowerStr (ha.getD "")) }
  else if ns = 2 then
    { old with
      status := ns
      updated_at := now
      cancelled_at := some now }
  else { old with status := ns, updated_at := now }

/-- A second distinct valid bounty id. -/
def exId2 : String := "0xbbbbbbbbbbbbbbbbbbbbbbbbbbbbbbbbbbbbbbbbbbbbbbbbbbbbbbbbbbbbbbbb"

/-- Open bounty created 20 minutes before the probe time 3600. -/
def b20ex : Bounty := { exCompleted with status := 0, created_at := 2400 }

/-- Open bounty created 10 minutes before the probe time 3600. -/
def b10ex : Bounty := { exCompleted with id := exId2, status := 0, created_at := 3000 }

def db520 : DB := ⟨[b20ex, b10ex], [], 0⟩

/-- The bounty row inserted by crud create_bounty. -/
def newBountyRow (bounty : BountyCreate) (mnee : Frac) (now : ℤ) : Bounty :=
  { id := lowerStr bounty.id
    title := bounty.title
    description := bounty.description
    creator_address := lowerStr bounty.creator_address
    amount := bounty.amount
    amount_mnee := mnee
    status := 0
    created_at := now
    updated_at := now
    completed_at := none
    cancelled_at := none
    hunter_address := none }

/-- The store after one successful registration of exRaw. -/
def c4db : DB := (Api.create_bounty emptyDB 0 exRaw).1

/-! ## Lemmas about the descending sort -/

theorem mem_insertDesc {a b : Bounty} {l : List Bounty} :
    a ∈ insertDesc b l ↔ a = b ∨ a ∈ l := by
  induction l with
  | nil => simp [insertDesc]
  | cons x xs ih =>
    simp only [insertDesc]
    split
    · simp
    · simp [ih]
      tauto

theorem mem_sortDesc {a : Bounty} {l : List Bounty} : a ∈ sortDesc l ↔ a ∈ l := by
  induction l with
  | nil => simp [sortDesc]
  | cons x xs ih => simp [sortDesc, mem_insertDesc, ih]

theorem pairwise_insertDesc {b : Bounty} {l : List Bounty}
    (h : l.Pairwise (fun x y => y.created_at ≤ x.created_at)) :
    (insertDesc b l).Pairwise (fun x y => y.created_at ≤ x.created_at) := by
  induction l with
  | nil => simp [insertDesc]
  | cons x xs ih =>
    cases h with
    | cons hx hxs =>
      simp only [insertDesc]
      split
      · rename_i hlt
        refine List.Pairwise.cons ?_ (List.Pairwise.cons hx hxs)
        intro y hy
        rcases List.mem_cons.mp hy with rfl | hy2
        · exact le_of_lt hlt
        · exact le_trans (hx y hy2) (le_of_lt hlt)
      · rename_i hge
        refine List.Pairwise.cons ?_ (ih hxs)
        intro y hy
        rcases mem_insertDesc.mp hy with rfl | hy2
        · exact le_of_not_lt hge
        · exact hx y hy2

theorem pairwise_sortDesc (l : List Bounty) :
    (sortDesc l).Pairwise (fun x y => y.created_at ≤ x.created_at) := by
  induction l with
  | nil => simp [sortDesc]
  | cons x xs ih => exact pairwise_insertDesc ih

/-! ## Helper lemmas about the store operations -/

/-- A found crud status update rewrites exactly the rows with that id to
updatedRow and returns it. -/
theorem update_found (db : DB) (now : ℤ) (bid : String) (ns : ℤ) (ha : Option String)
    (old : Bounty) (hget : Crud.get_bounty_by_id db bid = some old) :
    Crud.update_bounty_status db now bid ns ha =
      ({ db with
          bounties := db.bounties.map (fun x =>
            if x.id == (updatedRow old now ns ha).id then updatedRow old now ns ha else x) },
        some (updatedRow old now ns ha)) := by
  unfold Crud.update_bounty_status updatedRow
  rw [hget]

theorem updatedRow_metadata (old : Bounty) (now ns : ℤ) (ha : Option String) :
    (updatedRow old now ns ha).id = old.id ∧
    (updatedRow old now ns ha).title = old.title ∧
    (updatedRow old now ns ha).description = old.description ∧
    (updatedRow old now ns ha).creator_address = old.creator_address ∧
    (updatedRow old now ns ha).amount = old.amount ∧
    (updatedRow old now ns ha).amount_mnee = old.amount_mnee ∧
    (updatedRow old now ns ha).created_at = old.created_at := by
  unfold updatedRow
  by_cases h1 : ns = 1
  · simp [h1]
  · by_cases h2 : ns = 2
    · simp [h1, h2]
    · simp [h1, h2]

theorem updatedRow_status (old : Bounty) (now ns : ℤ) (ha : Option String) :
    (updatedRow old now ns ha).status = ns := by
  unfold updatedRow
  by_cases h1 : ns = 1
  · simp [h1]
  · by_cases h2 : ns = 2
    · simp [h1, h2]
    · simp [h1, h2]

theorem updatedRow_hunter_completed (old : Bounty) (now ns : ℤ) (ha : Option String)
    (h1 : ns = 1) (hf : pyFalsy ha = false) :
    (updatedRow old now ns ha).hunter_address = some (lowerStr (ha.getD "")) := by
  simp [updatedRow, h1, hf]

theorem updatedRow_hunter_other (old : Bounty) (now ns : ℤ) (ha : Option String)
    (h1 : ns ≠ 1) :
    (updatedRow old now ns ha).hunter_address = old.hunter_address := by
  by_cases h2 : ns = 2 <;> simp [updatedRow, h1, h2]

/-- The submit endpoint never changes the bounties table. -/
theorem submit_bounties_eq (db : DB) (now : ℤ) (bid : String) (raw : SubmissionCreate) :
    (Api.submit_work db now bid raw).1.bounties = db.bounties := by
  unfold Api.submit_work
  rcases validate_submission_create raw with _ | sc
  · rfl
  · by_cases hv : is_valid_bytes32 bid
    · simp only [hv, Bool.not_true, Bool.false_eq_true, if_false]
      rcases Crud.get_bounty_by_id db bid with _ | b
      · rfl
      · by_cases hs : (b.status == 0)
        · simp only [hs, Bool.not_true, Bool.false_eq_true, if_false]
          by_cases hany : (db.bounties.any fun b => b.id == lowerStr bid) = true
          · simp only [Crud.create_submission, hany, if_true]
          · simp only [Crud.create_submission, hany, Bool.false_eq_true, if_false]
        · simp [hs]
    · simp [hv]

/-- Case split for the creation endpoint: either the store is unchanged, or
exactly one fresh Open bounty with no hunter was appended. -/
theorem create_state_cases (db : DB) (now : ℤ) (raw : BountyCreate) :
    (Api.create_bounty db now raw).1 = db ∨
    ∃ bc mnee, validate_bounty_create raw = some bc ∧
      wei_to_mnee bc.amount = Except.ok mnee ∧
      Crud.get_bounty_by_id db bc.id = none ∧
      (Api.create_bounty db now raw).1 =
        { db with bounties := db.bounties ++
            [{ id := lowerStr bc.id, title := bc.title, description := bc.description,
               creator_address := lowerStr bc.creator_address, amount := bc.amount,
               amount_mnee := mnee, status := 0, created_at := now, updated_at := now,
               completed_at := none, cancelled_at := none, hunter_address := none }] } ∧
      (Api.create_bounty db now raw).2 = ApiResult.ok (lowerStr bc.id) := by
  unfold Api.create_bounty
  rcases hval : validate_bounty_create raw with _ | bc
  · left; rfl
  · simp only [hval]
    rcases hget : Crud.get_bounty_by_id db bc.id with _ | old
    · simp only [hget]
      unfold Crud.create_bounty
      rcases hm : wei_to_mnee bc.amount with e | mnee
      · simp only [hm]
        left
        trivial
      · simp only [hm]
        by_cases hdup : (db.bounties.any fun b => b.id == lowerStr bc.id) = true
        · simp only [hdup, if_true]
          left
          trivial
        · simp only [Bool.not_eq_true] at hdup
          simp only [hdup, Bool.false_eq_true, if_false]
          right
          exact ⟨bc, mnee, rfl, hm, hget, rfl, rfl⟩
    · simp only [hget]
      left
      trivial

/-! ## Claim C1 -/

/-- Claim C1, counterexample: a PATCH asking to move a stored Completed
bounty back to Open does not fail with any InvalidTransition error — it
succeeds and rewrites the stored status to 0. -/
theorem C1_counterexample :
    Api.update_bounty_status dbCompleted 20 exId { status := 0, hunter_address := none } =
      (⟨[{ exCompleted with status := 0, updated_at := 20 }], [], 0⟩,
        ApiResult.ok { exCompleted with status := 0, updated_at := 20 }) := by
  decide

/-- Claim C1 (amended): the status-update endpoint validates only the
identifier format and the hunter requirement: with a well-formed id, a
request with status Completed and a falsy hunter_address fails with HTTP 400
leaving the store unchanged; but there is no transition-legality check — for
any stored bounty and any other requested status (including moving a
terminal bounty back to Open) the update is applied, with the stored status
becoming exactly the requested one. -/
theorem C1_no_transition_validation :
    (∀ (db : DB) (now : ℤ) (bid : String) (su : BountyStatusUpdate),
      is_valid_bytes32 bid = true → su.status = 1 → pyFalsy su.hunter_address = true →
      Api.update_bounty_status db now bid su =
        (db, ApiResult.error 400 "hunter_address is required for completed bounties")) ∧
    (∀ (db : DB) (now : ℤ) (bid : String) (su : BountyStatusUpdate) (b : Bounty),
      is_valid_bytes32 bid = true → ¬(su.status = 1 ∧ pyFalsy su.hunter_address = true) →
      Crud.get_bounty_by_id db bid = some b →
      ∃ b2 : Bounty, (Api.update_bounty_status db now bid su).2 = ApiResult.ok b2 ∧
        b2.status = su.status) := by
  constructor
  · intro db now bid su hv hs hf
    simp [Api.update_bounty_status, hv, hs, hf]
  · intro db now bid su b hv hns hb
    have hc : (su.status == 1 && pyFalsy su.hunter_address) = false := by
      by_cases h : pyFalsy su.hunter_address = true
      · have hne : ¬ su.status = 1 := fun he => hns ⟨he, h⟩
        simp [hne]
      · simp only [Bool.not_eq_true] at h
        simp [h]
    simp only [Api.update_bounty_status, hv, Bool.not_true, Bool.false_eq_true, if_false, hc]
    rw [update_found db now bid su.status su.hunter_address b hb]
    exact ⟨updatedRow b now su.status su.hunter_address, rfl, updatedRow_status b now _ _⟩

/-- Claim C1 witness: a concrete Completed-without-hunter request is
rejected with the store untouched. -/
theorem C1_witness :
    Api.update_bounty_status dbCompleted 30 exId { status := 1, hunter_address := none } =
      (dbCompleted, ApiResult.error 400 "hunter_address is required for completed bounties") :=
  C1_no_transition_validation.1 dbCompleted 30 exId
    { status := 1, hunter_address := none } (by decide) rfl rfl

/-! ## Claim C2 -/

/-- Claim C2, counterexample: after the reachable history register →
complete(hunter) → cancel, the stored bounty is Cancelled yet still carries a
hunter address, so the hunter field is not null only-if Completed. -/
theorem C2_counterexample :
    Reachable c2db ∧ ∃ b, b ∈ c2db.bounties ∧ b.status = 2 ∧ b.hunter_address ≠ none := by
  constructor
  · exact Reachable.update c2db2 20 exId { status := 2, hunter_address := none }
      (Reachable.update c2db1 10 exId { status := 1, hunter_address := some exAddrB }
        (Reachable.create emptyDB 0 exRaw Reachable.init))
  · decide

/-! ## Claim C2 (amended theorem) -/

/-- Claim C2 (amended): one direction of the claimed equivalence holds on
every reachable store: a bounty whose status is Completed always carries a
hunter address (the endpoint rejects completion requests with a falsy
hunter_address, and the crud layer then stores the supplied hunter). The
converse direction is false — see the counterexample — because no later
transition ever clears a stored hunter. -/
theorem C2_completed_implies_hunter :
    ∀ db : DB, Reachable db → ∀ b ∈ db.bounties, b.status = 1 → b.hunter_address ≠ none := by
  intro db h
  induction h with
  | init => intro b hb; simp [emptyDB] at hb
  | create db now raw _ ih =>
    intro b hb hs
    rcases create_state_cases db now raw with hc | ⟨bc, mnee, _, _, _, hc, _⟩
    · rw [hc] at hb
      exact ih b hb hs
    · rw [hc] at hb
      rcases List.mem_append.mp hb with hmem | hmem
      · exact ih b hmem hs
      · simp at hmem
        rw [hmem] at hs
        simp at hs
  | update db now bid su _ ih =>
    intro b hb hs
    unfold Api.update_bounty_status at hb
    by_cases hv : is_valid_bytes32 bid
    · simp only [hv, Bool.not_true, Bool.false_eq_true, if_false] at hb
      by_cases hguard : (su.status == 1 && pyFalsy su.hunter_address) = true
      · rw [if_pos hguard] at hb
        exact ih b hb hs
      · rw [if_neg hguard] at hb
        rcases hget : Crud.get_bounty_by_id db bid with _ | old
        · unfold Crud.update_bounty_status at hb
          rw [hget] at hb
          exact ih b hb hs
        · rw [update_found db now bid su.status su.hunter_address old hget] at hb
          dsimp only at hb
          rcases List.mem_map.mp hb with ⟨x, hx, hxb⟩
          by_cases hid : (x.id == (updatedRow old now su.status su.hunter_address).id) = true
          · rw [if_pos hid] at hxb
            subst hxb
            by_cases h1 : su.status = 1
            · have hf : pyFalsy su.hunter_address = false := by
                by_cases hfe : pyFalsy su.hunter_address = true
                · exact absurd (by simp [h1, hfe]) hguard
                · simpa using hfe
              rw [updatedRow_hunter_completed old now su.status su.hunter_address h1 hf]
              simp
            · rw [updatedRow_status old now su.status su.hunter_address] at hs
              exact absurd hs h1
          · rw [if_neg hid] at hxb
            subst hxb
            exact ih x hx hs
    · simp only [hv, Bool.not_false, if_true] at hb
      exact ih b hb hs
  | submit db now bid raw _ ih =>
    intro b hb hs
    rw [submit_bounties_eq db now bid raw] at hb
    exact ih b hb hs

/-- Claim C2 witness: the forward direction applied to a concrete reachable
store holding one Completed bounty, whose hunter is indeed recorded. -/
theorem C2_witness :
    ∃ b ∈ c2db2.bounties, b.status = 1 ∧ b.hunter_address ≠ none := by
  have hreach : Reachable c2db2 :=
    Reachable.update c2db1 10 exId { status := 1, hunter_address := some exAddrB }
      (Reachable.create emptyDB 0 exRaw Reachable.init)
  have hmem : ∃ b ∈ c2db2.bounties, b.status = 1 := by decide
  obtain ⟨b, hb, hs⟩ := hmem
  exact ⟨b, hb, hs, C2_completed_implies_hunter c2db2 hreach b hb hs⟩

/-! ## Claim C3 -/

/-- Claim C3: submitWork with a well-formed id and a valid body returns 404
when no such bounty exists, 400 when the bounty is not Open, and otherwise
appends exactly one new submission row for that bounty, whatever submissions
already exist. -/
theorem C3_submit_work_gating :
    ∀ (db : DB) (now : ℤ) (bid : String) (raw : SubmissionCreate) (sc : SubmissionCreate),
      validate_submission_create raw = some sc → is_valid_bytes32 bid = true →
      (Crud.get_bounty_by_id db bid = none →
        Api.submit_work db now bid raw = (db, ApiResult.error 404 "Bounty not found")) ∧
      (∀ b : Bounty, Crud.get_bounty_by_id db bid = some b → b.status ≠ 0 →
        Api.submit_work db now bid raw =
          (db, ApiResult.error 400 "Bounty is not open for submissions")) ∧
      (∀ b : Bounty, Crud.get_bounty_by_id db bid = some b → b.status = 0 →
        Api.submit_work db now bid raw =
          ({ db with
              submissions := db.submissions ++
                [{ id := db.nextSubmissionId, bounty_id := lowerStr bid,
                   agent_wallet := lowerStr sc.wallet_address, result := sc.result,
                   submitted_at := now }],
              nextSubmissionId := db.nextSubmissionId + 1 },
            ApiResult.ok db.nextSubmissionId)) := by
  intro db now bid raw sc hval hv
  refine ⟨?_, ?_, ?_⟩
  · intro hget
    simp [Api.submit_work, hval, hv, hget]
  · intro b hget hs
    have hs0 : (b.status == 0) = false := by simp [hs]
    simp [Api.submit_work, hval, hv, hget, hs0]
  · intro b hget hs
    have hget2 : List.find? (fun x => x.id == lowerStr bid) db.bounties = some b := hget
    have hany : db.bounties.any (fun x => x.id == lowerStr bid) = true := by
      refine List.any_eq_true.mpr ⟨b, List.mem_of_find?_eq_some hget2, ?_⟩
      have hp := List.find?_some hget2
      exact hp
    simp [Api.submit_work, hval, hv, hget, hs, Crud.create_submission, hany]

/-- Claim C3 witness: on a concrete store holding one Open bounty, a
concrete valid submission succeeds and is appended. -/
theorem C3_witness :
    Api.submit_work ⟨[{ exCompleted with status := 0 }], [], 7⟩ 42 exId exSub =
      (⟨[{ exCompleted with status := 0 }],
        [{ id := 7, bounty_id := exId, agent_wallet := exAddrB, result := "result A",
           submitted_at := 42 }], 8⟩,
        ApiResult.ok 7) := by
  have h := (C3_submit_work_gating ⟨[{ exCompleted with status := 0 }], [], 7⟩ 42 exId exSub
    { wallet_address := exAddrB, result := "result A" } (by decide) (by decide)).2.2
    { exCompleted with status := 0 } (by decide) rfl
  rw [h]
  decide

/-! ## Claim C6 -/

/-- Claim C6 is contradicted by the code: on the malformed input "abc" the
Decimal constructor raises decimal.InvalidOperation, which is an
ArithmeticError and therefore passes through the except (ValueError,
TypeError) handler, so wei_to_mnee raises instead of returning 0.0. -/
theorem C6_wei_to_mnee_raises_on_malformed :
    wei_to_mnee "abc" = Except.error PyErr.invalidOperation := by decide

/-! ## Claim C8 -/

/-- Claim C8, counterexample: a 42-character 0x-prefixed path value whose
remaining 40 characters are not hex digits is accepted by the endpoint
(HTTP 200 with a list), although the codec classifies it as malformed. -/
theorem C8_counterexample :
    Api.get_my_bounties emptyDB exAddrBad = ApiResult.ok [] ∧
      is_valid_address exAddrBad = false := by
  constructor
  · decide
  · decide

/-- Claim C8 (amended): the endpoint returns HTTP 400 exactly for path
strings that do not start with 0x or do not have length 42; hexadecimal
well-formedness is not checked. -/
theorem C8_address_check_shape_only :
    ∀ (db : DB) (s : String),
      (∃ l, Api.get_my_bounties db s = ApiResult.ok l) ↔
        (startsWith0x s = true ∧ s.length = 42) := by
  intro db s
  unfold Api.get_my_bounties
  by_cases h1 : startsWith0x s
  · by_cases h2 : s.length = 42
    · simp [h1, h2]
    · simp [h1, h2]
  · simp [h1]

/-! ## Claim C9 -/

/-- Claim C9: every accepted status update preserves the identifier, title,
description, creator, raw amount, display amount and creation timestamp of
the updated bounty, changes no other bounty row (the map replaces only rows
with the updated id) and leaves the submissions table and its counter
untouched. -/
theorem C9_update_touches_only_lifecycle_fields :
    ∀ (db : DB) (now : ℤ) (bid : String) (su : BountyStatusUpdate) (db2 : DB) (b2 : Bounty),
      Api.update_bounty_status db now bid su = (db2, ApiResult.ok b2) →
      ∃ old : Bounty, Crud.get_bounty_by_id db bid = some old ∧
        b2.id = old.id ∧ b2.title = old.title ∧ b2.description = old.description ∧
        b2.creator_address = old.creator_address ∧ b2.amount = old.amount ∧
        b2.amount_mnee = old.amount_mnee ∧ b2.created_at = old.created_at ∧
        db2.submissions = db.submissions ∧ db2.nextSubmissionId = db.nextSubmissionId ∧
        db2.bounties = db.bounties.map (fun x => if x.id == old.id then b2 else x) := by
  intro db now bid su db2 b2 h
  unfold Api.update_bounty_status at h
  by_cases hv : is_valid_bytes32 bid
  · simp only [hv, Bool.not_true, Bool.false_eq_true, if_false] at h
    by_cases hguard : (su.status == 1 && pyFalsy su.hunter_address) = true
    · rw [if_pos hguard] at h
      simp at h
    · rw [if_neg hguard] at h
      rcases hget : Crud.get_bounty_by_id db bid with _ | old
      · unfold Crud.update_bounty_status at h
        rw [hget] at h
        simp at h
      · rw [update_found db now bid su.status su.hunter_address old hget] at h
        simp only [Prod.mk.injEq, ApiResult.ok.injEq] at h
        obtain ⟨hdb, hbu⟩ := h
        subst hbu
        obtain ⟨hid, hti, hde, hcr, ham, hmn, hca⟩ :=
          updatedRow_metadata old now su.status su.hunter_address
        refine ⟨old, rfl, hid, hti, hde, hcr, ham, hmn, hca, ?_, ?_, ?_⟩
        · rw [← hdb]
        · rw [← hdb]
        · rw [← hdb]
          rw [hid]
  · simp only [hv, Bool.not_false, if_true] at h
    simp at h

/-- Claim C9 witness: a concrete accepted cancellation, exhibiting the
untouched metadata fields. -/
theorem C9_witness :
    ∃ old : Bounty,
      Crud.get_bounty_by_id dbCompleted exId = some old ∧
      (Api.update_bounty_status dbCompleted 20 exId
          { status := 2, hunter_address := none }).1.bounties =
        dbCompleted.bounties.map (fun x =>
          if x.id == old.id then
            { exCompleted with status := 2, updated_at := 20, cancelled_at := some 20 }
          else x) := by
  obtain ⟨old, hget, _, _, _, _, _, _, _, _, _, hmap⟩ :=
    C9_update_touches_only_lifecycle_fields dbCompleted 20 exId
      { status := 2, hunter_address := none }
      (Api.update_bounty_status dbCompleted 20 exId { status := 2, hunter_address := none }).1
      { exCompleted with status := 2, updated_at := 20, cancelled_at := some 20 }
      (by decide)
    
  exact ⟨old, hget, hmap⟩

/-! ## Claims C5 and C10 -/

theorem toNat_ofNat_valid {n : ℕ} (h : n.isValidChar) : (Char.ofNat n).toNat = n := by
  rw [Char.ofNat, dif_pos h]
  rfl

theorem toLower_idem (c : Char) : Char.toLower (Char.toLower c) = Char.toLower c := by
  unfold Char.toLower
  by_cases h : c.toNat ≥ 65 ∧ c.toNat ≤ 90
  · rw [if_pos h]
    have hv : Nat.isValidChar (c.toNat + 32) := Or.inl (by omega)
    have ht : (Char.ofNat (c.toNat + 32)).toNat = c.toNat + 32 := toNat_ofNat_valid hv
    rw [ht, if_neg (by omega)]
  · rw [if_neg h, if_neg h]

theorem toLower_comp : (Char.toLower ∘ Char.toLower) = Char.toLower := funext toLower_idem

theorem lowerStr_idem (s : String) : lowerStr (lowerStr s) = lowerStr s := by
  show String.mk (((s.toList.map Char.toLower)).map Char.toLower) =
    String.mk (s.toList.map Char.toLower)
  rw [List.map_map, toLower_comp]

/-- Claim C5: under the implementation's 15-minute window, a bounty is
listed by GET /api/bounties exactly when it is stored with status Open and
its creation time is strictly below now minus 15 minutes; in particular a
bounty created 20 minutes before now is listed and one created 10 minutes
before now is not. -/
theorem C5_visibility_window :
    (∀ (db : DB) (now : ℤ) (b : Bounty),
      b ∈ Api.list_bounties db now ↔
        b ∈ db.bounties ∧ b.status = 0 ∧ b.created_at < now - 15 * 60) ∧
    b20ex ∈ Api.list_bounties db520 3600 ∧ b10ex ∉ Api.list_bounties db520 3600 := by
  have H : ∀ (db : DB) (now : ℤ) (b : Bounty),
      b ∈ Api.list_bounties db now ↔
        b ∈ db.bounties ∧ b.status = 0 ∧ b.created_at < now - 15 * 60 := by
    intro db now b
    unfold Api.list_bounties Crud.get_bounties_before_time get_one_hour_ago_timestamp
    rw [mem_sortDesc, List.mem_filter]
    simp [and_assoc]
  refine ⟨H, ?_, ?_⟩
  · exact (H db520 3600 b20ex).mpr ⟨by decide, by decide, by decide⟩
  · intro hmem
    have hlt := ((H db520 3600 b10ex).mp hmem).2.2
    exact absurd hlt (by decide)

/-- Claim C10: for a path value passing the endpoint's shape check, the
response is exactly the creator's stored bounties with status Open (matched
on the case-normalized address), newest first; Completed and Cancelled rows
are never included, and the model's endpoint takes no parameter that could
include them. -/
theorem C10_my_bounties_open_only :
    ∀ (db : DB) (s : String), startsWith0x s = true → s.length = 42 →
      ∃ l, Api.get_my_bounties db s = ApiResult.ok l ∧
        (∀ b : Bounty, b ∈ l ↔
          b ∈ db.bounties ∧ b.creator_address = lowerStr s ∧ b.status = 0) ∧
        l.Pairwise (fun x y => y.created_at ≤ x.created_at) := by
  intro db s h1 h2
  unfold Api.get_my_bounties
  simp only [h1, h2, beq_self_eq_true, Bool.and_true, Bool.true_and, Bool.not_true,
    Bool.false_eq_true, if_false, beq_iff_eq]
  refine ⟨_, rfl, ?_, ?_⟩
  · intro b
    unfold Crud.get_bounties_by_creator
    rw [List.mem_filter, mem_sortDesc, List.mem_filter, lowerStr_idem]
    simp only [beq_iff_eq, decide_eq_true_eq, Bool.and_eq_true, and_assoc]
  · exact List.Pairwise.filter _ (pairwise_sortDesc _)

/-- Claim C10 witness: applied to a concrete store and creator. -/
theorem C10_witness :
    ∃ l, Api.get_my_bounties db520 exAddrA = ApiResult.ok l ∧
      (∀ b : Bounty, b ∈ l ↔
        b ∈ db520.bounties ∧ b.creator_address = lowerStr exAddrA ∧ b.status = 0) ∧
      l.Pairwise (fun x y => y.created_at ≤ x.created_at) :=
  C10_my_bounties_open_only db520 exAddrA (by decide) (by decide)

/-! ## Digit-expansion and logarithm lemmas for the amount codec -/

theorem digitsFuel_zero (f : ℕ) : digitsFuel f 0 = [] := by
  cases f <;> rfl

theorem digitsFuel_congr (n : ℕ) :
    ∀ f g : ℕ, n ≤ f → n ≤ g → digitsFuel f n = digitsFuel g n := by
  induction n using Nat.strong_induction_on with
  | _ n ih =>
    intro f g hf hg
    rcases Nat.eq_zero_or_pos n with rfl | hn
    · rw [digitsFuel_zero, digitsFuel_zero]
    · obtain ⟨f2, rfl⟩ : ∃ f2, f = f2 + 1 := ⟨f - 1, by omega⟩
      obtain ⟨g2, rfl⟩ : ∃ g2, g = g2 + 1 := ⟨g - 1, by omega⟩
      show (if n = 0 then [] else n % 10 :: digitsFuel f2 (n / 10)) =
        (if n = 0 then [] else n % 10 :: digitsFuel g2 (n / 10))
      rw [if_neg (by omega), if_neg (by omega),
        ih (n / 10) (Nat.div_lt_self hn (by norm_num)) f2 g2 (by omega) (by omega)]

theorem decDigits_succ (n : ℕ) (hn : 1 ≤ n) :
    decDigits n = n % 10 :: decDigits (n / 10) := by
  unfold decDigits
  obtain ⟨m, rfl⟩ : ∃ m, n = m + 1 := ⟨n - 1, by omega⟩
  show (if m + 1 = 0 then [] else (m + 1) % 10 :: digitsFuel m ((m + 1) / 10)) = _
  rw [if_neg (by omega)]
  exact congrArg _ (digitsFuel_congr ((m + 1) / 10) m ((m + 1) / 10) (by omega) le_rfl)

/-- The fuel-based digit expansion agrees with Mathlib's. -/
theorem decDigits_eq_digits (n : ℕ) : decDigits n = Nat.digits 10 n := by
  induction n using Nat.strong_induction_on with
  | _ n ih =>
    rcases Nat.eq_zero_or_pos n with rfl | hn
    · rw [Nat.digits_zero]
      rfl
    · rw [decDigits_succ n hn, Nat.digits_def' (by norm_num : (1:ℕ) < 10) hn,
        ih (n / 10) (Nat.div_lt_self hn (by norm_num))]

theorem log2fuel_spec :
    ∀ f n : ℕ, 1 ≤ n → n ≤ f → 2 ^ log2fuel f n ≤ n ∧ n < 2 ^ (log2fuel f n + 1) := by
  intro f
  induction f with
  | zero => intro n h1 h2; omega
  | succ f ih =>
    intro n h1 h2
    show 2 ^ (if n < 2 then 0 else log2fuel f (n / 2) + 1) ≤ n ∧
      n < 2 ^ ((if n < 2 then 0 else log2fuel f (n / 2) + 1) + 1)
    by_cases h : n < 2
    · rw [if_pos h]; norm_num; omega
    · rw [if_neg h]
      have hr := ih (n / 2) (by omega) (by omega)
      constructor
      · calc 2 ^ (log2fuel f (n / 2) + 1) = 2 * 2 ^ log2fuel f (n / 2) := by ring
        _ ≤ 2 * (n / 2) := by omega
        _ ≤ n := by omega
      · calc n < 2 * (n / 2) + 2 := by omega
        _ ≤ 2 * 2 ^ (log2fuel f (n / 2) + 1) := by omega
        _ = 2 ^ (log2fuel f (n / 2) + 1 + 1) := by ring

theorem natLog2_spec (n : ℕ) (hn : 1 ≤ n) :
    2 ^ natLog2 n ≤ n ∧ n < 2 ^ (natLog2 n + 1) :=
  log2fuel_spec n n hn le_rfl

theorem log10fuel_spec :
    ∀ f n : ℕ, 1 ≤ n → n ≤ f → 10 ^ log10fuel f n ≤ n ∧ n < 10 ^ (log10fuel f n + 1) := by
  intro f
  induction f with
  | zero => intro n h1 h2; omega
  | succ f ih =>
    intro n h1 h2
    show 10 ^ (if n < 10 then 0 else log10fuel f (n / 10) + 1) ≤ n ∧
      n < 10 ^ ((if n < 10 then 0 else log10fuel f (n / 10) + 1) + 1)
    by_cases h : n < 10
    · rw [if_pos h]; norm_num; omega
    · rw [if_neg h]
      have hr := ih (n / 10) (by omega) (by omega)
      constructor
      · calc 10 ^ (log10fuel f (n / 10) + 1) = 10 * 10 ^ log10fuel f (n / 10) := by ring
        _ ≤ 10 * (n / 10) := by omega
        _ ≤ n := by omega
      · calc n < 10 * (n / 10) + 10 := by omega
        _ ≤ 10 * 10 ^ (log10fuel f (n / 10) + 1) := by omega
        _ = 10 ^ (log10fuel f (n / 10) + 1 + 1) := by ring

theorem natLog10_spec (n : ℕ) (hn : 1 ≤ n) :
    10 ^ natLog10 n ≤ n ∧ n < 10 ^ (natLog10 n + 1) :=
  log10fuel_spec n n hn le_rfl

theorem natLog2_le_of_le {v B : ℕ} (h : v ≤ 2 ^ B) : natLog2 v ≤ B := by
  rcases Nat.eq_zero_or_pos v with rfl | hv
  · show log2fuel 0 0 ≤ B
    simp [log2fuel]
  · have hs := natLog2_spec v hv
    have : 2 ^ natLog2 v ≤ 2 ^ B := le_trans hs.1 h
    exact (Nat.pow_le_pow_iff_right Nat.one_lt_two).mp this

theorem natLog10_le_of_le {v B : ℕ} (h : v ≤ 10 ^ B) : natLog10 v ≤ B := by
  rcases Nat.eq_zero_or_pos v with rfl | hv
  · show log10fuel 0 0 ≤ B
    simp [log10fuel]
  · have hs := natLog10_spec v hv
    have : 10 ^ natLog10 v ≤ 10 ^ B := le_trans hs.1 h
    exact (Nat.pow_le_pow_iff_right (by norm_num)).mp this

theorem natLog2_eq {n e : ℕ} (h1 : 2 ^ e ≤ n) (h2 : n < 2 ^ (e + 1)) : natLog2 n = e := by
  have hn : 1 ≤ n := le_trans (Nat.one_le_two_pow) h1
  have hs := natLog2_spec n hn
  have ha : natLog2 n ≤ e := by
    by_contra hc
    push_neg at hc
    exact absurd (le_trans (Nat.pow_le_pow_right (by norm_num) hc) hs.1) (by omega)
  have hb : e ≤ natLog2 n := by
    by_contra hc
    push_neg at hc
    exact absurd (le_trans (Nat.pow_le_pow_right (by norm_num) hc) h1) (by omega)
  omega

/-! ## Parsing a plain digit string -/

theorem digitChar_spec (d : ℕ) (hd : d < 10) :
    isDigitChar (digitChar d) = true ∧ (digitChar d).toNat - 48 = d := by
  interval_cases d <;> exact ⟨by decide, by decide⟩

theorem digit_char_ne (c : Char) (hc : isDigitChar c = true) :
    (c == '+') = false ∧ (c == '-') = false ∧ (c == '.') = false ∧
    (c == 'e') = false ∧ (c == 'E') = false := by
  refine ⟨?_, ?_, ?_, ?_, ?_⟩ <;>
  · rw [beq_eq_false_iff_ne]
    intro h
    subst h
    exact absurd hc (by decide)

theorem allDigits_map_digitChar (L : List ℕ) (hL : ∀ d ∈ L, d < 10) :
    allDigits (L.map digitChar) = true := by
  unfold allDigits
  rw [List.all_eq_true]
  intro c hc
  rcases List.mem_map.mp hc with ⟨d, hd, rfl⟩
  exact (digitChar_spec d (hL d hd)).1

theorem splitFirst_none (p : Char → Bool) (l : List Char) (h : ∀ c ∈ l, p c = false) :
    splitFirst p l = (l, none) := by
  induction l with
  | nil => rfl
  | cons c cs ih =>
    simp only [splitFirst, h c (List.mem_cons_self c cs), Bool.false_eq_true, if_false,
      ih (fun x hx => h x (List.mem_cons_of_mem c hx))]

theorem parseSign_of_digits (l : List Char) (h : ∀ c ∈ l, isDigitChar c = true) :
    parseSign l = (false, l) := by
  cases l with
  | nil => rfl
  | cons c cs =>
    obtain ⟨h1, h2, _, _, _⟩ := digit_char_ne c (h c (List.mem_cons_self c cs))
    simp [parseSign, h1, h2]

theorem decDigits_lt (n : ℕ) : ∀ d ∈ decDigits n, d < 10 := by
  rw [decDigits_eq_digits]
  intro d hd
  exact Nat.digits_lt_base (by norm_num) hd

theorem digitsVal_rev_map (n : ℕ) :
    digitsVal ((decDigits n).reverse.map digitChar) = n := by
  unfold digitsVal
  rw [List.foldl_map]
  have hd : ∀ a : ℕ, ∀ d ∈ (decDigits n).reverse,
      10 * a + ((digitChar d).toNat - 48) = 10 * a + d := by
    intro a d hdm
    rw [(digitChar_spec d (decDigits_lt n d (List.mem_reverse.mp hdm))).2]
  rw [List.foldl_ext _ _ 0 hd, List.foldl_reverse]
  have hfn : (fun (x y : ℕ) => 10 * y + x) = fun x y => x + 10 * y := by
    funext x y
    omega
  have hof : ∀ L : List ℕ, List.foldr (fun x y => x + 10 * y) 0 L = Nat.ofDigits 10 L := by
    intro L
    induction L with
    | nil => simp [Nat.ofDigits_nil]
    | cons d L ih => simp [Nat.ofDigits_cons, ih]
  rw [hfn, decDigits_eq_digits, hof]
  exact_mod_cast Nat.ofDigits_digits 10 n

theorem pyStrNat_digits (n : ℕ) (hn : 1 ≤ n) :
    pyStrNat n = String.mk ((decDigits n).reverse.map digitChar) := by
  unfold pyStrNat
  rw [if_neg (by omega)]

/-- The decimal grammar accepts the canonical digit string of a natural
number, with its exact value. -/
theorem parseDecimal_pyStrNat (n : ℕ) : parseDecimal (pyStrNat n) = some ⟨(n : ℤ), 1⟩ := by
  rcases Nat.eq_zero_or_pos n with rfl | hn
  · decide
  · rw [pyStrNat_digits n hn]
    have hdigs : ∀ c ∈ (decDigits n).reverse.map digitChar, isDigitChar c = true := by
      intro c hc
      rcases List.mem_map.mp hc with ⟨d, hd, rfl⟩
      exact (digitChar_spec d (decDigits_lt n d (List.mem_reverse.mp hd))).1
    have hne : (decDigits n).reverse.map digitChar ≠ [] := by
      simp only [ne_eq, List.map_eq_nil_iff, List.reverse_eq_nil_iff, decDigits_eq_digits]
      exact Nat.digits_ne_nil_iff_ne_zero.mpr (by omega)
    have h1 : parseSign ((String.mk ((decDigits n).reverse.map digitChar)).toList) =
        (false, (decDigits n).reverse.map digitChar) := parseSign_of_digits _ hdigs
    have h2 : splitFirst (fun c => c == 'e' || c == 'E')
        ((decDigits n).reverse.map digitChar) =
        ((decDigits n).reverse.map digitChar, none) := by
      apply splitFirst_none
      intro c hc
      obtain ⟨_, _, _, h4, h5⟩ := digit_char_ne c (hdigs c hc)
      rw [h4, h5]
      rfl
    have h3 : splitFirst (fun c => c == '.') ((decDigits n).reverse.map digitChar) =
        ((decDigits n).reverse.map digitChar, none) := by
      apply splitFirst_none
      intro c hc
      exact (digit_char_ne c (hdigs c hc)).2.2.1
    have had : allDigits ((decDigits n).reverse.map digitChar) = true :=
      allDigits_map_digitChar _ (fun d hd => decDigits_lt n d (List.mem_reverse.mp hd))
    have hie : ((decDigits n).reverse.map digitChar).isEmpty = false :=
      List.isEmpty_eq_false.mpr hne
    unfold parseDecimal
    rw [h1]
    dsimp only
    rw [h2]
    dsimp only
    unfold parseMantissa
    rw [h3]
    dsimp only
    rw [had, hie, digitsVal_rev_map]
    rfl

/-! ## Exact-rounding lemmas for Frac -/

theorem mul_ediv_cancel_int (m : ℤ) (D : ℕ) (hD : 0 < D) : (m * (D : ℤ)).ediv D = m := by
  have hD2 : (D : ℤ) ≠ 0 := by exact_mod_cast Nat.pos_iff_ne_zero.mp hD
  exact Int.mul_ediv_cancel m hD2

theorem rheF_exact (m : ℤ) (D : ℕ) (hD : 0 < D) : rheF ⟨m * (D : ℤ), D⟩ = m := by
  have hDpos : (0 : ℤ) < D := by exact_mod_cast hD
  unfold rheF
  dsimp only
  rw [mul_ediv_cancel_int m D hD]
  have hz : m * (D : ℤ) - m * D = 0 := by ring
  rw [hz]
  rw [if_pos (by omega)]

theorem rheF_le (N : ℤ) (D : ℕ) : rheF ⟨N, D⟩ ≤ N.ediv D + 1 := by
  unfold rheF
  dsimp only
  split
  · omega
  · split
    · omega
    · split <;> omega

theorem rheF_nonneg (N : ℤ) (D : ℕ) (h0 : 0 ≤ N) : 0 ≤ rheF ⟨N, D⟩ := by
  have hf : 0 ≤ N.ediv D := Int.ediv_nonneg h0 (by positivity)
  unfold rheF
  dsimp only
  split
  · omega
  · split
    · omega
    · split <;> omega

theorem den_le_mul_num (n D : ℕ) (_hD : 0 < D) (hn : 1 ≤ n) : (D : ℤ) ≤ (n : ℤ) * D := by
  have h1 : (1 : ℤ) ≤ (n : ℤ) := by exact_mod_cast hn
  nlinarith [show (0:ℤ) ≤ (D:ℤ) by positivity]

/-- floorLog2F of an exact positive integer multiple n of the denominator is
the integer logarithm of n. -/
theorem floorLog2F_mul (n D : ℕ) (hD : 0 < D) (hn : 1 ≤ n) :
    floorLog2F ⟨(n : ℤ) * D, D⟩ = (natLog2 n : ℤ) := by
  unfold floorLog2F
  dsimp only
  rw [if_pos (den_le_mul_num n D hD hn)]
  rw [mul_ediv_cancel_int (n : ℤ) D hD, Int.toNat_natCast]

theorem floorLog10F_mul (n D : ℕ) (hD : 0 < D) (hn : 1 ≤ n) :
    floorLog10F ⟨(n : ℤ) * D, D⟩ = (natLog10 n : ℤ) := by
  unfold floorLog10F
  dsimp only
  rw [if_pos (den_le_mul_num n D hD hn)]
  rw [mul_ediv_cancel_int (n : ℤ) D hD, Int.toNat_natCast]

/-- Stepwise evaluation lemmas for the power-of-two scaling. -/
theorem mulPow2_of_nonneg (q : Frac) (k : ℤ) (h : 0 ≤ k) :
    q.mulPow2 k = ⟨q.num * ((2 ^ k.toNat : ℕ) : ℤ), q.den⟩ := by
  unfold Frac.mulPow2
  rw [if_pos h]

theorem mulPow2_of_neg (q : Frac) (k : ℤ) (h : ¬ 0 ≤ k) :
    q.mulPow2 k = ⟨q.num, q.den * 2 ^ (-k).toNat⟩ := by
  unfold Frac.mulPow2
  rw [if_neg h]

theorem mulPow10_of_nonneg (q : Frac) (k : ℤ) (h : 0 ≤ k) :
    q.mulPow10 k = ⟨q.num * ((10 ^ k.toNat : ℕ) : ℤ), q.den⟩ := by
  unfold Frac.mulPow10
  rw [if_pos h]

theorem mulPow10_of_neg (q : Frac) (k : ℤ) (h : ¬ 0 ≤ k) :
    q.mulPow10 k = ⟨q.num, q.den * 10 ^ (-k).toNat⟩ := by
  unfold Frac.mulPow10
  rw [if_neg h]

/-- Binary64 rounding is exact on an integer value n whose significand fits:
the result is n in some power-of-two representation. -/
theorem float64Round_mul (n D : ℕ) (hD : 0 < D) (hn : 1 ≤ n)
    (hdvd : 2 ^ (natLog2 n - 52) ∣ n) :
    ∃ j : ℕ, float64Round ⟨(n : ℤ) * D, D⟩ = ⟨(n : ℤ) * ((2 ^ j : ℕ) : ℤ), 2 ^ j⟩ := by
  have hnum : ((n : ℤ) * D) ≠ 0 := by positivity
  have hpos : ¬ ((n : ℤ) * D) < 0 := not_lt.mpr (by positivity)
  unfold float64Round
  rw [if_neg (by dsimp only; exact hnum), if_neg (by dsimp only; exact hpos)]
  unfold float64RoundPos
  rw [floorLog2F_mul n D hD hn]
  dsimp only
  by_cases hle : natLog2 n ≤ 52
  · refine ⟨52 - natLog2 n, ?_⟩
    rw [mulPow2_of_nonneg _ (-((natLog2 n : ℤ) - 52)) (by omega)]
    dsimp only
    rw [show ((-((natLog2 n : ℤ) - 52)).toNat) = 52 - natLog2 n by omega]
    rw [show ((n : ℤ) * D * ((2 ^ (52 - natLog2 n) : ℕ) : ℤ)) =
      ((n : ℤ) * ((2 ^ (52 - natLog2 n) : ℕ) : ℤ)) * D by ring]
    rw [rheF_exact _ D hD]
    by_cases hz : natLog2 n = 52
    · rw [mulPow2_of_nonneg _ ((natLog2 n : ℤ) - 52) (by omega)]
      refine congrArg₂ Frac.mk ?_ ?_
      · dsimp only [Frac.ofInt]
        rw [show (((natLog2 n : ℤ) - 52)).toNat = 0 by omega, hz]
        push_cast
        ring
      · dsimp only [Frac.ofInt]
        rw [hz]
        norm_num
    · rw [mulPow2_of_neg _ ((natLog2 n : ℤ) - 52) (by omega)]
      refine congrArg₂ Frac.mk ?_ ?_
      · dsimp only [Frac.ofInt]
      · dsimp only [Frac.ofInt]
        rw [show ((-((natLog2 n : ℤ) - 52)).toNat) = 52 - natLog2 n by omega]
        norm_num
  · obtain ⟨q, hq⟩ := hdvd
    refine ⟨0, ?_⟩
    have hqZ : (n : ℤ) = ((2 ^ (natLog2 n - 52) : ℕ) : ℤ) * (q : ℤ) := by exact_mod_cast hq
    rw [mulPow2_of_neg _ (-((natLog2 n : ℤ) - 52)) (by omega)]
    dsimp only
    rw [show ((-(-((natLog2 n : ℤ) - 52))).toNat) = natLog2 n - 52 by omega]
    have hq2 : ((n : ℤ) * D) = (q : ℤ) * ((D * 2 ^ (natLog2 n - 52) : ℕ) : ℤ) := by
      rw [hqZ]
      push_cast
      ring
    rw [hq2, rheF_exact (q : ℤ) _ (by positivity)]
    rw [mulPow2_of_nonneg _ ((natLog2 n : ℤ) - 52) (by omega)]
    refine congrArg₂ Frac.mk ?_ ?_
    · dsimp only [Frac.ofInt]
      rw [show (((natLog2 n : ℤ) - 52)).toNat = natLog2 n - 52 by omega, hqZ]
      push_cast
      ring
    · dsimp only [Frac.ofInt]
      norm_num

/-- Any natural below 2^53 (and 2^53 itself) has a binary64-exact
significand. -/
theorem dvd_pow_sub52_of_le (n : ℕ) (h : n ≤ 2 ^ 53) : 2 ^ (natLog2 n - 52) ∣ n := by
  rcases Nat.eq_zero_or_pos n with rfl | hn
  · simp
  · by_cases h53 : n < 2 ^ 53
    · have hlog : natLog2 n ≤ 52 := by
        have hs := natLog2_spec n hn
        have hlt : 2 ^ natLog2 n < 2 ^ 53 := lt_of_le_of_lt hs.1 h53
        have := (Nat.pow_lt_pow_iff_right Nat.one_lt_two).mp hlt
        omega
      rw [show natLog2 n - 52 = 0 by omega]
      simp
    · have hn53 : n = 2 ^ 53 := by omega
      subst hn53
      rw [natLog2_eq le_rfl (by norm_num)]
      exact pow_dvd_pow 2 (by norm_num)

/-- An even natural in (2^53, 2^54] also has an exact significand. -/
theorem dvd_pow_sub52_of_even (c : ℕ) (h1 : 2 ^ 53 < c) (h2 : c ≤ 2 ^ 54) (h3 : 2 ∣ c) :
    2 ^ (natLog2 c - 52) ∣ c := by
  by_cases hc : c < 2 ^ 54
  · rw [natLog2_eq (show 2 ^ 53 ≤ c by omega) (by exact hc)]
    simpa using h3
  · have hc54 : c = 2 ^ 54 := by omega
    subst hc54
    rw [natLog2_eq le_rfl (by norm_num)]
    exact pow_dvd_pow 2 (by norm_num)

/-- float() succeeds on an exact integer value n with a fitting significand
and exponent below the overflow cutoff. -/
theorem pyFloat_mul (n D : ℕ) (hD : 0 < D) (hn : 1 ≤ n) (hlog : natLog2 n ≤ 1023)
    (hdvd : 2 ^ (natLog2 n - 52) ∣ n) :
    ∃ j : ℕ, pyFloat ⟨(n : ℤ) * D, D⟩ = Except.ok ⟨(n : ℤ) * ((2 ^ j : ℕ) : ℤ), 2 ^ j⟩ := by
  obtain ⟨j, hj⟩ := float64Round_mul n D hD hn hdvd
  refine ⟨j, ?_⟩
  unfold pyFloat
  rw [hj]
  dsimp only
  rw [if_neg (show ¬ ((n : ℤ) * ((2 ^ j : ℕ) : ℤ)) = 0 by positivity)]
  rw [if_neg (show ¬ ((n : ℤ) * ((2 ^ j : ℕ) : ℤ)) < 0 from not_lt.mpr (by positivity))]
  rw [floorLog2F_mul n (2 ^ j) (by positivity) hn]
  rw [if_neg (by exact_mod_cast not_le.mpr (by omega : natLog2 n < 1024))]

/-- Decimal context rounding is the identity on an exact positive integer
value v whose significant digits fit the precision (the divisibility
hypothesis), in some power-of-ten representation. -/
theorem decimalRound28_exact (v D : ℕ) (hD : 0 < D) (hv : 1 ≤ v)
    (hdvd : 10 ^ (natLog10 v - 27) ∣ v) :
    ∃ D2 : ℕ, 0 < D2 ∧
      decimalRound28 ⟨(v : ℤ) * D, D⟩ = ⟨(v : ℤ) * ((D2 : ℕ) : ℤ), D2⟩ := by
  unfold decimalRound28
  rw [if_neg (show ¬ ((v : ℤ) * D) = 0 by positivity)]
  dsimp only
  rw [if_neg (show ¬ ((v : ℤ) * D) < 0 from not_lt.mpr (by positivity))]
  rw [floorLog10F_mul v D hD hv]
  by_cases hle : natLog10 v ≤ 27
  · refine ⟨10 ^ (27 - natLog10 v), by positivity, ?_⟩
    rw [mulPow10_of_nonneg _ (-((natLog10 v : ℤ) - 27)) (by omega)]
    dsimp only
    rw [show ((-((natLog10 v : ℤ) - 27)).toNat) = 27 - natLog10 v by omega]
    rw [show ((v : ℤ) * D * ((10 ^ (27 - natLog10 v) : ℕ) : ℤ)) =
      ((v : ℤ) * ((10 ^ (27 - natLog10 v) : ℕ) : ℤ)) * D by ring]
    rw [rheF_exact _ D hD]
    by_cases hz : natLog10 v = 27
    · rw [mulPow10_of_nonneg _ ((natLog10 v : ℤ) - 27) (by omega)]
      refine congrArg₂ Frac.mk ?_ ?_
      · dsimp only [Frac.ofInt]
        rw [show (((natLog10 v : ℤ) - 27)).toNat = 0 by omega, hz]
        push_cast
        ring
      · dsimp only [Frac.ofInt]
        rw [hz]
        norm_num
    · rw [mulPow10_of_neg _ ((natLog10 v : ℤ) - 27) (by omega)]
      refine congrArg₂ Frac.mk ?_ ?_
      · dsimp only [Frac.ofInt]
      · dsimp only [Frac.ofInt]
        rw [show ((-((natLog10 v : ℤ) - 27)).toNat) = 27 - natLog10 v by omega]
        norm_num
  · obtain ⟨q, hq⟩ := hdvd
    refine ⟨1, by norm_num, ?_⟩
    have hqZ : (v : ℤ) = ((10 ^ (natLog10 v - 27) : ℕ) : ℤ) * (q : ℤ) := by exact_mod_cast hq
    rw [mulPow10_of_neg _ (-((natLog10 v : ℤ) - 27)) (by omega)]
    dsimp only
    rw [show ((-(-((natLog10 v : ℤ) - 27))).toNat) = natLog10 v - 27 by omega]
    have hq2 : ((v : ℤ) * D) = (q : ℤ) * ((D * 10 ^ (natLog10 v - 27) : ℕ) : ℤ) := by
      rw [hqZ]
      push_cast
      ring
    rw [hq2, rheF_exact (q : ℤ) _ (by positivity)]
    rw [mulPow10_of_nonneg _ ((natLog10 v : ℤ) - 27) (by omega)]
    refine congrArg₂ Frac.mk ?_ ?_
    · dsimp only [Frac.ofInt]
      rw [show (((natLog10 v : ℤ) - 27)).toNat = natLog10 v - 27 by omega, hqZ]
      push_cast
      ring
    · dsimp only [Frac.ofInt]

/-- The wei-to-display conversion on an exact multiple of 10^18 with display
quotient n at most 2^53: the stored float is exactly n. -/
theorem wei_to_mnee_mul (n : ℕ) (hn : 1 ≤ n) (h53 : n ≤ 2 ^ 53) :
    ∃ j : ℕ, wei_to_mnee (pyStrNat (n * 10 ^ 18)) =
      Except.ok ⟨(n : ℤ) * ((2 ^ j : ℕ) : ℤ), 2 ^ j⟩ := by
  have hdiv : Frac.div ⟨((n * 10 ^ 18 : ℕ) : ℤ), 1⟩ (Frac.ofNat WEI_PER_MNEE) =
      ⟨(n : ℤ) * ((10 ^ 18 : ℕ) : ℤ), 10 ^ 18⟩ := by
    unfold Frac.div Frac.ofNat WEI_PER_MNEE
    dsimp only
    refine congrArg₂ Frac.mk ?_ ?_
    · rw [Int.sign_natCast_of_ne_zero (by norm_num)]
      push_cast
      ring
    · rw [Int.natAbs_ofNat]
      norm_num
  obtain ⟨D2, hD2, hround⟩ := decimalRound28_exact n (10 ^ 18) (by norm_num) hn (by
    have h16 : natLog10 n ≤ 16 := natLog10_le_of_le (le_trans h53 (by norm_num))
    rw [show natLog10 n - 27 = 0 by omega]
    simp)
  obtain ⟨j, hfloat⟩ := pyFloat_mul n D2 hD2 hn
    (by have := natLog2_le_of_le h53; omega) (dvd_pow_sub52_of_le n h53)
  refine ⟨j, ?_⟩
  unfold wei_to_mnee
  rw [parseDecimal_pyStrNat]
  dsimp only
  unfold decimalDiv
  rw [hdiv, hround, hfloat]
  rfl

/-! ## The float repr value on small integers -/

theorem numDigits_bounds (n : ℕ) (hn : 1 ≤ n) :
    10 ^ (numDigits n - 1) ≤ n ∧ n < 10 ^ numDigits n ∧ 1 ≤ numDigits n := by
  unfold numDigits
  rw [decDigits_eq_digits, Nat.digits_len 10 n (by norm_num) (by omega)]
  have h1 := Nat.pow_log_le_self 10 (show n ≠ 0 by omega)
  have h2 := Nat.lt_pow_succ_log_self (show 1 < 10 by norm_num) n
  exact ⟨by simpa using h1, h2, by omega⟩

/-- Every d-digit candidate is positive, at most 2m, and is either m itself,
even, or below m. -/
theorem reprCandidates_facts (m d : ℕ) (hm : 1 ≤ m) (hd : 1 ≤ d) (c : ℕ)
    (hc : c ∈ reprCandidates m d) : 1 ≤ c ∧ c ≤ 2 * m ∧ (c = m ∨ 2 ∣ c ∨ c < m) := by
  unfold reprCandidates at hc
  by_cases hnd : numDigits m ≤ d
  · rw [if_pos hnd] at hc
    simp at hc
    subst hc
    exact ⟨hm, by omega, Or.inl rfl⟩
  · rw [if_neg hnd] at hc
    obtain ⟨hlow, hhigh, hlen⟩ := numDigits_bounds m hm
    have he : numDigits m - d ≤ numDigits m - 1 := by omega
    have hpe : 10 ^ (numDigits m - d) ≤ m :=
      le_trans (Nat.pow_le_pow_right (by norm_num) he) hlow
    have hq1 : 1 ≤ m / 10 ^ (numDigits m - d) := (Nat.one_le_div_iff (by positivity)).mpr hpe
    have hqm : m / 10 ^ (numDigits m - d) * 10 ^ (numDigits m - d) ≤ m :=
      Nat.div_mul_le_self m _
    have he1 : 1 ≤ numDigits m - d := by omega
    have hdvd2 : (2 : ℕ) ∣ 10 ^ (numDigits m - d) := by
      have : (2 : ℕ) ∣ 10 := by norm_num
      exact dvd_trans this (dvd_pow_self 10 (by omega))
    rcases List.mem_cons.mp hc with rfl | hc2
    · refine ⟨by simpa using Nat.mul_le_mul hq1 (Nat.one_le_pow (numDigits m - d) 10 (by norm_num)), by omega, ?_⟩
      rcases Nat.lt_or_ge (m / 10 ^ (numDigits m - d) * 10 ^ (numDigits m - d)) m with h | h
      · exact Or.inr (Or.inr h)
      · exact Or.inl (by omega)
    · rcases List.mem_cons.mp hc2 with rfl | hc3
      · refine ⟨by simpa using Nat.mul_le_mul (Nat.le_add_left 1 (m / 10 ^ (numDigits m - d))) (Nat.one_le_pow (numDigits m - d) 10 (by norm_num)), ?_, Or.inr (Or.inl (Dvd.dvd.mul_left hdvd2 _))⟩
        have : (m / 10 ^ (numDigits m - d) + 1) * 10 ^ (numDigits m - d) =
            m / 10 ^ (numDigits m - d) * 10 ^ (numDigits m - d) + 10 ^ (numDigits m - d) := by
          ring
        omega
      · simp at hc3

/-- Reading back any admissible candidate by binary64 rounding identifies it
with the float's value. -/
theorem roundsTo_eq (m c : ℕ) (hm53 : m ≤ 2 ^ 53) (hc1 : 1 ≤ c)
    (hc2 : c ≤ 2 ^ 54) (hcd : c ≤ 2 ^ 53 ∨ 2 ∣ c) :
    (roundsTo c m = true) ↔ c = m := by
  have hdvd : 2 ^ (natLog2 c - 52) ∣ c := by
    rcases hcd with h | h
    · exact dvd_pow_sub52_of_le c h
    · by_cases hgt : 2 ^ 53 < c
      · exact dvd_pow_sub52_of_even c hgt hc2 h
      · exact dvd_pow_sub52_of_le c (by omega)
  obtain ⟨j, hj⟩ := float64Round_mul c 1 (by norm_num) hc1 hdvd
  have hofc : Frac.ofNat c = ⟨(c : ℤ) * ((1 : ℕ) : ℤ), 1⟩ := by
    unfold Frac.ofNat
    refine congrArg₂ Frac.mk ?_ rfl
    push_cast
    ring
  unfold roundsTo
  rw [hofc, hj]
  unfold Frac.beqv Frac.ofNat
  dsimp only
  rw [beq_iff_eq]
  constructor
  · intro h
    have hz : ((2 ^ j : ℕ) : ℤ) ≠ 0 := by positivity
    have h2 : (c : ℤ) * ((2 ^ j : ℕ) : ℤ) = (m : ℤ) * ((2 ^ j : ℕ) : ℤ) := by
      push_cast at h ⊢
      linarith
    exact_mod_cast mul_right_cancel₀ hz h2
  · rintro rfl
    push_cast
    ring

/-- At every digit count, repr's pick among the admissible candidates can
only be the exact value m. -/
theorem pickShort_eq (m : ℕ) (hm : 1 ≤ m) (hm53 : m ≤ 2 ^ 53) (d : ℕ) (hd : 1 ≤ d) :
    pickShort m d = none ∨ pickShort m d = some m := by
  have hmem : ∀ c ∈ (reprCandidates m d).filter (fun c => roundsTo c m), c = m := by
    intro c hcf
    obtain ⟨hcmem, hcr⟩ := List.mem_filter.mp hcf
    obtain ⟨h1, h2, h3⟩ := reprCandidates_facts m d hm hd c hcmem
    have hcd : c ≤ 2 ^ 53 ∨ 2 ∣ c := by
      rcases h3 with rfl | h | h
      · exact Or.inl hm53
      · exact Or.inr h
      · exact Or.inl (by omega)
    exact (roundsTo_eq m c hm53 h1 (by omega) hcd).mp hcr
  unfold pickShort
  rcases hfl : (reprCandidates m d).filter (fun c => roundsTo c m) with _ | ⟨c1, rest⟩
  · left
    rfl
  · rcases rest with _ | ⟨c2, rest2⟩
    · right
      rw [hmem c1 (by rw [hfl]; exact List.mem_cons_self c1 [])]
    · right
      have e1 : c1 = m := hmem c1 (by rw [hfl]; simp)
      have e2 : c2 = m := hmem c2 (by rw [hfl]; simp)
      subst e1
      subst e2
      split
      · rename_i heq
        simp at heq
      · rename_i c heq
        simp at heq
      · rename_i ca cb tl heq
        injection heq with h1 h2
        injection h2 with h2 h3
        subst h1
        subst h2
        split_ifs <;> rfl

/-- The value read back from repr of a float with integer value at most 2^53
is that value itself. -/
theorem pyReprValueNat_eq (n : ℕ) (h53 : n ≤ 2 ^ 53) : pyReprValueNat n = n := by
  rcases Nat.eq_zero_or_pos n with rfl | hn
  · rfl
  · unfold pyReprValueNat
    rcases hfind : (List.range (numDigits n)).findSome? (fun i => pickShort n (i + 1))
      with _ | v
    · rfl
    · obtain ⟨i, _, hpick⟩ := List.exists_of_findSome?_eq_some hfind
      rcases pickShort_eq n hn h53 (i + 1) (by omega) with h | h
      · rw [hpick] at h
        cases h
      · rw [hpick] at h
        exact Option.some.inj h

/-- repr of a float holding an exact integer at most 2^53 reads back to that
integer. -/
theorem pyReprValue_mul (n j : ℕ) (h53 : n ≤ 2 ^ 53) :
    pyReprValue ⟨(n : ℤ) * ((2 ^ j : ℕ) : ℤ), 2 ^ j⟩ = Frac.ofNat n := by
  unfold pyReprValue
  rw [if_pos ⟨by positivity, Int.mul_emod_left _ _⟩]
  show Frac.ofNat (pyReprValueNat (((n : ℤ) * ((2 ^ j : ℕ) : ℤ)).ediv ((2 ^ j : ℕ) : ℤ)).toNat) =
    Frac.ofNat n
  rw [mul_ediv_cancel_int (n : ℤ) (2 ^ j) (by positivity), Int.toNat_natCast,
    pyReprValueNat_eq n h53]

/-- The display-to-wei conversion of an exact float value n at most 2^53
emits the canonical decimal string of n * 10^18. -/
theorem mnee_to_wei_mul (n j : ℕ) (hn : 1 ≤ n) (h53 : n ≤ 2 ^ 53) :
    mnee_to_wei ⟨(n : ℤ) * ((2 ^ j : ℕ) : ℤ), 2 ^ j⟩ = pyStrNat (n * 10 ^ 18) := by
  have hrec : Frac.mul (Frac.ofNat n) (Frac.ofNat WEI_PER_MNEE) =
      ⟨((n * 10 ^ 18 : ℕ) : ℤ) * ((1 : ℕ) : ℤ), 1⟩ := by
    unfold Frac.mul Frac.ofNat WEI_PER_MNEE
    refine congrArg₂ Frac.mk ?_ rfl
    push_cast
    ring
  obtain ⟨D2, hD2, hround⟩ := decimalRound28_exact (n * 10 ^ 18) 1 (by norm_num)
    (Nat.one_le_iff_ne_zero.mpr (by positivity)) (by
      have hlog : natLog10 (n * 10 ^ 18) ≤ 34 :=
        natLog10_le_of_le (le_trans (Nat.mul_le_mul_right _ h53) (by norm_num))
      have h7 : natLog10 (n * 10 ^ 18) - 27 ≤ 7 := by omega
      exact dvd_trans (pow_dvd_pow 10 (le_trans h7 (by norm_num)))
        (dvd_mul_left (10 ^ 18) n))
  have htd : Frac.truncI ⟨((n * 10 ^ 18 : ℕ) : ℤ) * ((D2 : ℕ) : ℤ), D2⟩ =
      ((n * 10 ^ 18 : ℕ) : ℤ) := by
    unfold Frac.truncI
    exact Int.mul_tdiv_cancel _ (Int.natCast_ne_zero.mpr (by omega))
  unfold mnee_to_wei
  dsimp only
  rw [pyReprValue_mul n j h53]
  unfold decimalMul
  rw [hrec, hround, htd]
  unfold pyStrInt
  rw [if_neg (not_lt.mpr (by positivity)), Int.toNat_natCast]

/-- C7 counterexample: the base-unit string for (2^53 + 1) * 10^18 is within
uint256 range and an exact multiple of 10^18, yet the codec round-trip
returns the string for 2^53 * 10^18 instead, because the intermediate float
cannot represent 2^53 + 1. -/
theorem C7_counterexample :
    roundTrip (pyStrNat ((2 ^ 53 + 1) * 10 ^ 18)) =
      Except.ok (pyStrNat (2 ^ 53 * 10 ^ 18)) ∧
    pyStrNat ((2 ^ 53 + 1) * 10 ^ 18) ≠ pyStrNat (2 ^ 53 * 10 ^ 18) := by
  constructor
  · decide
  · decide

/-- C7 (amended): the codec round-trip mnee_to_wei ∘ wei_to_mnee is the
identity on the canonical base-unit strings of n * 10^18 exactly as long as
the multiplier n does not exceed the float integer-precision bound 2^53. -/
theorem C7_roundtrip_small (n : ℕ) (h53 : n ≤ 2 ^ 53) :
    roundTrip (pyStrNat (n * 10 ^ 18)) = Except.ok (pyStrNat (n * 10 ^ 18)) := by
  rcases Nat.eq_zero_or_pos n with rfl | hn
  · decide
  · obtain ⟨j, hwei⟩ := wei_to_mnee_mul n hn h53
    unfold roundTrip
    rw [hwei]
    show Except.ok (mnee_to_wei ⟨(n : ℤ) * ((2 ^ j : ℕ) : ℤ), 2 ^ j⟩) =
      Except.ok (pyStrNat (n * 10 ^ 18))
    rw [mnee_to_wei_mul n j hn h53]

/-- C7 witness: the round-trip identity at the concrete amount 2 MNEE. -/
theorem C7_roundtrip_small_witness :
    roundTrip (pyStrNat (2 * 10 ^ 18)) = Except.ok (pyStrNat (2 * 10 ^ 18)) :=
  C7_roundtrip_small 2 (by norm_num)

/-- Dissection of a successful POST /api/bounty: the request validated, the
amount converted, no stored id collided, and the store gained exactly the new
row. -/
theorem create_ok_cases (db db2 : DB) (now : ℤ) (raw : BountyCreate) (bid : String)
    (h1 : Api.create_bounty db now raw = (db2, ApiResult.ok bid)) :
    ∃ bc mnee, validate_bounty_create raw = some bc ∧
      (db.bounties.any fun b => b.id == lowerStr bc.id) = false ∧
      db2 = { db with bounties := db.bounties ++ [newBountyRow bc mnee now] } := by
  unfold Api.create_bounty at h1
  rcases hval : validate_bounty_create raw with _ | bc
  · simp only [hval] at h1
    simp at h1
  · simp only [hval] at h1
    rcases hget : Crud.get_bounty_by_id db bc.id with _ | old
    · simp only [hget] at h1
      unfold Crud.create_bounty at h1
      rcases hm : wei_to_mnee bc.amount with e | mnee
      · simp only [hm] at h1
        simp at h1
      · simp only [hm] at h1
        by_cases hdup : (db.bounties.any fun b => b.id == lowerStr bc.id) = true
        · simp only [hdup, if_true] at h1
          simp at h1
        · simp only [Bool.not_eq_true] at hdup
          simp only [hdup, Bool.false_eq_true, if_false] at h1
          exact ⟨bc, mnee, rfl, hdup, (congrArg Prod.fst h1).symm⟩
    · simp only [hget] at h1
      simp at h1

/-- The validated request's id is the lower-cased raw id. -/
theorem validate_id_eq (raw bc : BountyCreate)
    (hval : validate_bounty_create raw = some bc) : bc.id = lowerStr raw.id := by
  unfold validate_bounty_create at hval
  split at hval
  · rw [← Option.some.inj hval]
  · cases hval

/-- C4: registering a bounty twice with the same identifier up to case
normalization: after a successful first creation, any second validated
request with that identifier leaves the store unchanged, answers HTTP 400
(duplicate), and exactly one bounty is stored under the identifier. -/
theorem C4_idempotent_creation (db db2 : DB) (now now2 : ℤ)
    (raw raw2 bounty2 : BountyCreate) (bid : String)
    (h1 : Api.create_bounty db now raw = (db2, ApiResult.ok bid))
    (h2 : validate_bounty_create raw2 = some bounty2)
    (hid : lowerStr raw2.id = lowerStr raw.id) :
    Api.create_bounty db2 now2 raw2 = (db2, ApiResult.error 400 "Bounty already exists") ∧
    (db2.bounties.filter (fun b => b.id == lowerStr raw.id)).length = 1 := by
  obtain ⟨bc, mnee, hval, hdup, hdb2⟩ := create_ok_cases db db2 now raw bid h1
  have hbcid : bc.id = lowerStr raw.id := validate_id_eq raw bc hval
  have hb2id : bounty2.id = lowerStr raw2.id := validate_id_eq raw2 bounty2 h2
  have hrl : lowerStr bc.id = lowerStr raw.id := by rw [hbcid, lowerStr_idem]
  have hrl2 : lowerStr bounty2.id = lowerStr raw.id := by rw [hb2id, lowerStr_idem, hid]
  have hrowid : (newBountyRow bc mnee now).id = lowerStr raw.id := hrl
  have hnone : ∀ b ∈ db.bounties, (b.id == lowerStr raw.id) = false := by
    intro b hb
    rcases hbx : (b.id == lowerStr raw.id) with _ | _
    · rfl
    · exfalso
      rw [← hrl] at hbx
      have hx : db.bounties.any (fun b => b.id == lowerStr bc.id) = true :=
        List.any_eq_true.mpr ⟨b, hb, hbx⟩
      rw [hdup] at hx
      cases hx
  constructor
  · unfold Api.create_bounty
    simp only [h2]
    have hfind : Crud.get_bounty_by_id db2 bounty2.id = some (newBountyRow bc mnee now) := by
      unfold Crud.get_bounty_by_id
      rw [hdb2]
      dsimp only
      rw [List.find?_append]
      have hn : db.bounties.find? (fun b => b.id == lowerStr bounty2.id) = none := by
        rw [List.find?_eq_none]
        intro x hx hxx
        have hxx2 : (x.id == lowerStr raw.id) = true := by rw [← hrl2]; exact hxx
        rw [hnone x hx] at hxx2
        cases hxx2
      rw [hn, Option.none_or]
      rw [List.find?_cons_of_pos]
      show ((newBountyRow bc mnee now).id == lowerStr bounty2.id) = true
      rw [hrowid, hrl2]
      exact beq_self_eq_true _
    simp only [hfind]
  · rw [hdb2]
    dsimp only
    rw [List.filter_append]
    have hfn : db.bounties.filter (fun b => b.id == lowerStr raw.id) = [] := by
      rw [List.filter_eq_nil_iff]
      intro a ha
      simp [hnone a ha]
    have hone : List.filter (fun b => b.id == lowerStr raw.id) [newBountyRow bc mnee now] =
        [newBountyRow bc mnee now] := by
      have hp : (fun (b : Bounty) => b.id == lowerStr raw.id) (newBountyRow bc mnee now) = true := by
        show ((newBountyRow bc mnee now).id == lowerStr raw.id) = true
        rw [hrowid]
        exact beq_self_eq_true _
      rw [@List.filter_cons_of_pos Bounty (fun b => b.id == lowerStr raw.id) (newBountyRow bc mnee now) [] hp]
      rfl
    rw [hfn, hone]
    rfl

/-- C4 witness: the concrete double registration of exRaw from the empty
store. -/
theorem C4_witness :
    Api.create_bounty c4db 5 exRaw = (c4db, ApiResult.error 400 "Bounty already exists") ∧
    (c4db.bounties.filter (fun b => b.id == lowerStr exRaw.id)).length = 1 :=
  C4_idempotent_creation emptyDB c4db 0 5 exRaw exRaw exRaw exId
    (by decide) (by decide) rfl

end Makemnee
